import Mathlib

/-!
Shallow embedding of `bedpool` (src/lib.rs): a line-by-line BED-file parser
(`BedFile::next`) and a two-pointer sorted-merge (`sync2`) over two files.

Modelling conventions:
* Rust `u64` fields are `Nat`; the parser enforces the `< 2^64` bound exactly
  where Rust's `u64::from_str` does (overflow is a parse error); no other
  arithmetic is performed on them.
* Rust `f32` values are modelled by `F32`: an exact rational payload plus the
  IEEE-754 special values (two infinities and NaN).  Addition of two finite
  values is the exact rational sum and division the exact quotient — real
  `f32` rounds each to the nearest representable value.  No claim settled in
  this development depends on that rounding, and every concrete input used is
  exactly representable, so the operations agree with `f32` there.  The model
  has no negative zero.
* A `BedFile`'s remaining unread text is the list of chunks that successive
  `BufRead::read_line` calls would return (each chunk keeps its terminator).
  `read_line` yields an empty chunk only at end of file, so a reachable file
  state never holds an empty string in `lines`; `wfFile` states this.
* Output via `println!` is collected as a list of lines (without the
  trailing newline) in `SyncResult.out`.
* `panic!`/`unreachable!`/`unwrap` failures are modelled by explicit
  `panicked` result constructors, so "never panics" is a provable statement.
-/

namespace Bedpool

/-- Characters Rust's `char::is_ascii_whitespace` accepts: space, tab,
newline, form feed, carriage return. -/
def isAsciiWhitespace (c : Char) : Bool :=
  c = ' ' || c = '\t' || c = '\n' || c = '\x0c' || c = '\r'

/-- Accumulator worker for `asciiWords`: `acc` holds the current word
reversed. -/
def asciiWordsAux : List Char → List Char → List (List Char)
  | [], acc => if acc.isEmpty then [] else [acc.reverse]
  | c :: cs, acc =>
    if isAsciiWhitespace c then
      if acc.isEmpty then asciiWordsAux cs [] else acc.reverse :: asciiWordsAux cs []
    else asciiWordsAux cs (c :: acc)

/-- Model of Rust's `str::split_ascii_whitespace`: the maximal runs of
non-whitespace characters, in order; empty words never occur. -/
def asciiWords (cs : List Char) : List (List Char) :=
  asciiWordsAux cs []

/-- Big-endian decimal digit accumulation, `'0'`-relative. -/
def digitsToNat (acc : Nat) : List Char → Nat
  | [] => acc
  | c :: cs => digitsToNat (acc * 10 + (c.toNat - '0'.toNat)) cs

/-- Digit run of `u64::from_str` after the sign has been stripped: the run
must be nonempty, all ASCII digits, and the value must fit in 64 bits.  The
error strings are the `Display` texts of Rust's `ParseIntError` kinds. -/
def parseU64Digits (ds : List Char) : Except String Nat :=
  if ds.isEmpty then .error "invalid digit found in string"
  else if ds.all Char.isDigit then
    if digitsToNat 0 ds < 2 ^ 64 then .ok (digitsToNat 0 ds)
    else .error "number too large to fit in target type"
  else .error "invalid digit found in string"

/-- Model of Rust's `u64::from_str`: optional leading `'+'` (a `'-'` is
rejected for unsigned types), then decimal digits. -/
def parseU64 (cs : List Char) : Except String Nat :=
  match cs with
  | [] => .error "cannot parse integer from empty string"
  | '+' :: rest => parseU64Digits rest
  | '-' :: _ => .error "invalid digit found in string"
  | _ => parseU64Digits cs

/-- Model of an `f32` value: an exact rational for the finite values (see
the module comment for the rounding caveat), plus the IEEE-754 special
values produced by unguarded arithmetic such as division by zero. -/
inductive F32 where
  | finite (val : ℚ)
  | posInf
  | negInf
  | nan
deriving DecidableEq, Repr

/-- Exact rational addition through the kernel-computable `mkRat`. -/
def qadd (a b : ℚ) : ℚ :=
  mkRat (a.num * b.den + b.num * a.den) (a.den * b.den)

/-- Exact rational multiplication through `mkRat`. -/
def qmul (a b : ℚ) : ℚ :=
  mkRat (a.num * b.num) (a.den * b.den)

/-- Exact rational division through `mkRat`; caller guarantees `b ≠ 0`. -/
def qdiv (a b : ℚ) : ℚ :=
  if b.num < 0 then mkRat (-(a.num * (b.den : Int))) (a.den * b.num.natAbs)
  else mkRat (a.num * (b.den : Int)) (a.den * b.num.natAbs)

/-- Exact rational negation. -/
def qneg (a : ℚ) : ℚ :=
  mkRat (-a.num) a.den

/-- IEEE-754 `f32` addition on the model: NaN propagates, opposite
infinities give NaN, an infinity absorbs finite values, and two finite
values add exactly (`f32` would round the sum). -/
def F32.add : F32 → F32 → F32
  | nan, _ => nan
  | _, nan => nan
  | finite a, finite b => finite (qadd a b)
  | posInf, negInf => nan
  | negInf, posInf => nan
  | posInf, _ => posInf
  | _, posInf => posInf
  | negInf, _ => negInf
  | _, negInf => negInf

/-- IEEE-754 `f32` division on the model: NaN propagates, `0 / 0` is NaN, a
nonzero finite value divided by zero is a signed infinity, `inf / inf` is
NaN, and finite quotients are exact (`f32` would round). -/
def F32.div : F32 → F32 → F32
  | nan, _ => nan
  | _, nan => nan
  | finite a, finite b =>
    if b.num = 0 then
      if a.num = 0 then nan
      else if 0 < a.num then posInf
      else negInf
    else finite (qdiv a b)
  | posInf, posInf => nan
  | posInf, negInf => nan
  | negInf, posInf => nan
  | negInf, negInf => nan
  | posInf, finite b => if b.num < 0 then negInf else posInf
  | negInf, finite b => if b.num < 0 then posInf else negInf
  | finite _, posInf => finite 0
  | finite _, negInf => finite 0

instance : Add F32 := ⟨F32.add⟩

instance : Div F32 := ⟨F32.div⟩

/-- True exactly on the finite values; infinities and NaN are non-finite. -/
def F32.isFinite : F32 → Bool
  | finite _ => true
  | _ => false

/-- Splits the character run at the first `'e'`/`'E'`: mantissa text and,
when an exponent marker is present, the text after it. -/
def splitExp : List Char → List Char × Option (List Char)
  | [] => ([], none)
  | c :: r =>
    if c = 'e' || c = 'E' then ([], some r)
    else ((splitExp r).1.cons c, (splitExp r).2)

/-- Mantissa of Rust's float grammar, sign already stripped:
`Digits '.'? | Digits? '.' Digits` — at least one digit overall. -/
def parseMantissa (cs : List Char) : Option ℚ :=
  match cs.dropWhile Char.isDigit with
  | [] => if cs.isEmpty then none else some (mkRat (digitsToNat 0 cs) 1)
  | '.' :: fp =>
    if fp.all Char.isDigit && !(cs.takeWhile Char.isDigit).isEmpty || !fp.isEmpty && fp.all Char.isDigit then
      some (mkRat (digitsToNat 0 (cs.takeWhile Char.isDigit) * 10 ^ fp.length + digitsToNat 0 fp) (10 ^ fp.length))
    else none
  | _ => none

/-- Exponent of Rust's float grammar: optional sign then a nonempty digit
run. -/
def parseExpPart : List Char → Option Int
  | [] => none
  | '+' :: r =>
    if !r.isEmpty && r.all Char.isDigit then some (digitsToNat 0 r) else none
  | '-' :: r =>
    if !r.isEmpty && r.all Char.isDigit then some (-(digitsToNat 0 r : Int)) else none
  | r =>
    if r.all Char.isDigit then some (digitsToNat 0 r) else none

/-- Scales the mantissa by the parsed power of ten, exactly. -/
def applyExp (q : ℚ) (e : Int) : ℚ :=
  if 0 ≤ e then qmul q (mkRat ((10 : Int) ^ e.toNat) 1)
  else qmul q (mkRat 1 (10 ^ (-e).toNat))

/-- Model of Rust's `f32::from_str`: optional sign, then case-insensitive
`inf`/`infinity`/`nan` or a decimal number with optional exponent.  The
value is kept exact instead of rounded to `f32`, and a finite overflow to
infinity is not modelled; the error string is `ParseFloatError`'s `Display`
text. -/
def parseF32 (cs : List Char) : Except String F32 :=
  let sgn : Bool × List Char :=
    match cs with
    | '+' :: r => (false, r)
    | '-' :: r => (true, r)
    | _ => (false, cs)
  let neg := sgn.1
  let body := sgn.2
  let lower := body.map Char.toLower
  if lower = "inf".data || lower = "infinity".data then
    .ok (if neg then F32.negInf else F32.posInf)
  else if lower = "nan".data then .ok F32.nan
  else
    match parseMantissa (splitExp body).1, (splitExp body).2 with
    | some q, none => .ok (F32.finite (if neg then qneg q else q))
    | some q, some ecs =>
      match parseExpPart ecs with
      | some e => .ok (F32.finite (if neg then qneg (applyExp q e) else applyExp q e))
      | none => .error "invalid float literal"
    | none, _ => .error "invalid float literal"

/-- Smallest exponent `k` with `d ∣ 10^k`, searched up to 400 (every finite
`f32` has a power-of-two denominator of at most `2^149`, so the search always
succeeds on representable values). -/
def decExp (d : Nat) : Option Nat :=
  (List.range 400).find? fun k => 10 ^ k % d = 0

/-- Decimal rendering of an exact rational: integers print with no point,
other values print their exact decimal expansion with no trailing zeros.
This models Rust's shortest-round-trip `f32` `Display` output on every value
whose shortest form is its exact expansion — true of all concrete values in
this development (a bit-exact model of the general shortest-digit search is
out of scope). -/
def fmtRat (q : ℚ) : String :=
  if q.den = 1 then toString q.num
  else
    match decExp q.den with
    | some k =>
      let ds := (toString (q.num.natAbs * 10 ^ k / q.den)).data
      let ds := List.replicate (k + 1 - ds.length) '0' ++ ds
      (if q.num < 0 then "-" else "")
        ++ String.mk (ds.take (ds.length - k)) ++ "." ++ String.mk (ds.drop (ds.length - k))
    | none => toString q.num ++ "/" ++ toString q.den

/-- Display text of an `f32` value, as Rust prints it. -/
def F32.fmt : F32 → String
  | finite q => fmtRat q
  | posInf => "inf"
  | negInf => "-inf"
  | nan => "NaN"

/-- The coordinate key `(chrom, start, end)` of a record
(struct `BedCoords<'a>` in the source; the borrowed `&'a str` chrom slice is
modelled as an owned string, which is sound because the merge fully consumes
each record before its reader is advanced). -/
structure BedCoords where
  chrom : String
  start : Nat
  «end» : Nat
deriving DecidableEq, Repr

/-- Lexicographic strict order on character lists by codepoint.  Rust
compares `&str` byte-lexicographically; UTF-8 byte order coincides with
codepoint order, so this models Rust's `str` ordering. -/
def lexLt : List Char → List Char → Bool
  | [], [] => false
  | [], _ :: _ => true
  | _ :: _, [] => false
  | a :: as, b :: bs => if a < b then true else if b < a then false else lexLt as bs

/-- String comparison as Rust's `Ord for str`. -/
def strLt (a b : String) : Bool :=
  lexLt a.data b.data

/-- Model of the derived `Ord for BedCoords<'a>`: lexicographic by field, in
declaration order `chrom`, `start`, `end`. -/
def BedCoords.cmp (a b : BedCoords) : Ordering :=
  if strLt a.chrom b.chrom then .lt
  else if strLt b.chrom a.chrom then .gt
  else if a.start < b.start then .lt
  else if b.start < a.start then .gt
  else if a.«end» < b.«end» then .lt
  else if b.«end» < a.«end» then .gt
  else .eq

/-- One parsed interval record (struct `BedRecord<'a>` in the source). -/
structure BedRecord where
  coords : BedCoords
  ratio : F32
  meth : F32
  cov : F32
deriving DecidableEq, Repr

/-- The `Display` impl for `BedRecord`: the six columns tab-separated, in
order chrom, start, end, ratio, meth, cov (one `println!` line, without the
newline). -/
def recordLine (r : BedRecord) : String :=
  r.coords.chrom ++ "\t" ++ toString r.coords.start ++ "\t" ++ toString r.coords.«end»
    ++ "\t" ++ F32.fmt r.ratio ++ "\t" ++ F32.fmt r.meth ++ "\t" ++ F32.fmt r.cov

/-- The error taxonomy (enum `BedError`).  Underlying `io::Error` payloads
are modelled as their message strings; the `Io` constructor is the source's
`IO` variant, which the modelled code never constructs. -/
inductive BedError where
  | Io (msg : String)
  | File (filename : String) (msg : String)
  | Parse (filename : String) (lineno : Nat) (msg : String)
deriving DecidableEq, Repr

/-- Parsing one raw line into a record, as the body of `BedFile::next` does
after reading it: split on ASCII whitespace, keep the first six fields
(extras are ignored), require at least six, then parse chrom verbatim,
start/end as `u64`, and ratio/meth/cov as `f32`, wrapping each failure in a
`Parse` error carrying the file name and 1-based line number. -/
def parseLine (filename : String) (lineno : Nat) (line : String) : Except BedError BedRecord :=
  let parts := (asciiWords line.data).take 6
  if h6 : parts.length < 6 then
    .error (.Parse filename lineno ("expected at least 6 columns, got " ++ toString parts.length))
  else
    match parseU64 (parts.get ⟨1, by omega⟩) with
    | .error m => .error (.Parse filename lineno ("expected integer, but " ++ m))
    | .ok startv =>
      match parseU64 (parts.get ⟨2, by omega⟩) with
      | .error m => .error (.Parse filename lineno ("expected integer, but " ++ m))
      | .ok endv =>
        match parseF32 (parts.get ⟨3, by omega⟩) with
        | .error m => .error (.Parse filename lineno ("expected float, but " ++ m))
        | .ok ratiov =>
          match parseF32 (parts.get ⟨4, by omega⟩) with
          | .error m => .error (.Parse filename lineno ("expected float, but " ++ m))
          | .ok methv =>
            match parseF32 (parts.get ⟨5, by omega⟩) with
            | .error m => .error (.Parse filename lineno ("expected float, but " ++ m))
            | .ok covv =>
              .ok { coords := { chrom := String.mk (parts.get ⟨0, by omega⟩),
                                start := startv, «end» := endv },
                    ratio := ratiov, meth := methv, cov := covv }

/-- Reader state (struct `BedFile`): 1-based count of lines consumed, last
raw line read, file path, remaining unread chunks (see module comment), the
buffer-size hint, and the sticky end-of-file flag.  `bufsize` holds the
chunk's character count where Rust stores the byte count returned by
`read_line`; the code only relies on it being zero exactly on an empty
chunk, which holds for both counts. -/
structure BedFile where
  lineno : Nat
  last : Option String
  filename : String
  lines : List String
  bufsize : Nat
  at_eof : Bool
deriving DecidableEq, Repr

/-- State `BedFile::new` returns after successfully opening `fname` on a
file whose `read_line` chunks are `contents`. -/
def mkFile (fname : String) (contents : List String) : BedFile :=
  { lineno := 0, last := none, filename := fname, lines := contents,
    bufsize := 32, at_eof := false }

/-- A reachable reader state: `read_line` never returns an empty chunk
except at end of file, so no unread chunk is empty. -/
def wfFile (bf : BedFile) : Prop :=
  ∀ l ∈ bf.lines, l ≠ ""

/-- Result of one `next` call: a record, end of file (`ok none`), an error —
or a panic, which the code never actually reaches (`nextNoPanic`). -/
inductive NextResult where
  | ok (rec : Option BedRecord)
  | err (e : BedError)
  | panicked
deriving DecidableEq, Repr

/-- Model of `BedFile::next`, returning the result together with the
mutated reader.  Mirrors the source: sticky-EOF early return; one
`read_line`; the `bufsize == 0` EOF check; increment `lineno` and store the
line in `last` before parsing; then the `if let Some(ref line) = self.last`
whose `else` branch is `unreachable!()` (modelled as `panicked`). -/
def BedFile.next (bf : BedFile) : NextResult × BedFile :=
  if bf.at_eof then (.ok none, bf)
  else
    match bf.lines with
    | [] => (.ok none, { bf with bufsize := 0, at_eof := true })
    | line :: rest =>
      if line.length = 0 then (.ok none, { bf with bufsize := 0, at_eof := true, lines := rest })
      else
        let bf1 : BedFile :=
          { bf with bufsize := line.length, lineno := bf.lineno + 1,
                    last := some line, lines := rest }
        match bf1.last with
        | some l =>
          (match parseLine bf1.filename bf1.lineno l with
           | .ok r => .ok (some r)
           | .error e => .err e,
           bf1)
        | none => (.panicked, bf1)

/-- Outcome of `sync2`: clean termination, a propagated reader error, or a
panic (never reached, see `sync2NoPanic`). -/
inductive SyncOutcome where
  | ok
  | err (e : BedError)
  | panicked
deriving DecidableEq, Repr

/-- Result of a `sync2` run: the lines printed to standard output, in
order, and the final outcome.  Lines printed before a failure stay
printed. -/
structure SyncResult where
  out : List String
  res : SyncOutcome
deriving DecidableEq, Repr

/-- Prepends one printed line to a later result. -/
def consLine (s : String) (r : SyncResult) : SyncResult :=
  { out := s :: r.out, res := r.res }

/-- Number of records a `next` result carries (0 or 1), for the merge's
termination measure. -/
def recCount : NextResult → Nat
  | .ok (some _) => 1
  | _ => 0

/-- Number of records a pending slot holds (0 or 1). -/
def optCount : Option BedRecord → Nat
  | none => 0
  | some _ => 1

theorem recCount_ok (o : Option BedRecord) : recCount (.ok o) = optCount o := by
  cases o <;> rfl

/-- One `next` call never grows the reader's unread chunks: consuming a
record consumes a chunk; EOF and errors consume at most one. -/
theorem next_measure (bf : BedFile) :
    (bf.next).2.lines.length + recCount (bf.next).1 ≤ bf.lines.length := by
  obtain ⟨n, la, fn, ls, b, eof⟩ := bf
  cases eof
  · cases ls with
    | nil => simp [BedFile.next, recCount]
    | cons line rest =>
      by_cases h : line.length = 0
      · simp [BedFile.next, h, recCount]
      · cases hp : parseLine fn (n + 1) line <;>
          simp [BedFile.next, h, hp, recCount]
  · simp [BedFile.next, recCount]

theorem next_measure' {bf bf' : BedFile} {r : Option BedRecord}
    (h : bf.next = (.ok r, bf')) :
    bf'.lines.length + optCount r ≤ bf.lines.length := by
  have m := next_measure bf
  rw [h] at m
  simpa [recCount_ok] using m

/-- The `loop` of `sync2`, entered with one pending record already pulled
from each reader.  Mirrors the source's five-way case split: equal keys
aggregate and advance both; strictly smaller key passes through and
advances its own reader; one side exhausted passes the other through and
advances both; both exhausted terminates.  Emission happens before the
advancing `next` calls, so an emitted line survives a later failure. -/
def sync2Loop (r1 r2 : Option BedRecord) (f1 f2 : BedFile) : SyncResult :=
  match r1, r2 with
  | some rec1, some rec2 =>
    match BedCoords.cmp rec1.coords rec2.coords with
    | .eq =>
      let meth := rec1.meth + rec2.meth
      let cov := rec1.cov + rec2.cov
      let ratio := meth / cov
      let line := recordLine { rec1 with ratio := ratio, meth := meth, cov := cov }
      match h1 : f1.next with
      | (.err e, _) => ⟨[line], .err e⟩
      | (.panicked, _) => ⟨[line], .panicked⟩
      | (.ok r1', f1') =>
        match h2 : f2.next with
        | (.err e, _) => ⟨[line], .err e⟩
        | (.panicked, _) => ⟨[line], .panicked⟩
        | (.ok r2', f2') => consLine line (sync2Loop r1' r2' f1' f2')
    | .lt =>
      match h1 : f1.next with
      | (.err e, _) => ⟨[recordLine rec1], .err e⟩
      | (.panicked, _) => ⟨[recordLine rec1], .panicked⟩
      | (.ok r1', f1') => consLine (recordLine rec1) (sync2Loop r1' (some rec2) f1' f2)
    | .gt =>
      match h2 : f2.next with
      | (.err e, _) => ⟨[recordLine rec2], .err e⟩
      | (.panicked, _) => ⟨[recordLine rec2], .panicked⟩
      | (.ok r2', f2') => consLine (recordLine rec2) (sync2Loop (some rec1) r2' f1 f2')
  | some rec, none =>
    match h1 : f1.next with
    | (.err e, _) => ⟨[recordLine rec], .err e⟩
    | (.panicked, _) => ⟨[recordLine rec], .panicked⟩
    | (.ok r1', f1') =>
      match h2 : f2.next with
      | (.err e, _) => ⟨[recordLine rec], .err e⟩
      | (.panicked, _) => ⟨[recordLine rec], .panicked⟩
      | (.ok r2', f2') => consLine (recordLine rec) (sync2Loop r1' r2' f1' f2')
  | none, some rec =>
    match h1 : f1.next with
    | (.err e, _) => ⟨[recordLine rec], .err e⟩
    | (.panicked, _) => ⟨[recordLine rec], .panicked⟩
    | (.ok r1', f1') =>
      match h2 : f2.next with
      | (.err e, _) => ⟨[recordLine rec], .err e⟩
      | (.panicked, _) => ⟨[recordLine rec], .panicked⟩
      | (.ok r2', f2') => consLine (recordLine rec) (sync2Loop r1' r2' f1' f2')
  | none, none => ⟨[], .ok⟩
termination_by (f1.lines.length + f2.lines.length) + (optCount r1 + optCount r2)
decreasing_by
· have A := next_measure' h1
  have B := next_measure' h2
  simp only [optCount] at *
  omega
· have A := next_measure' h1
  simp only [optCount] at *
  omega
· have B := next_measure' h2
  simp only [optCount] at *
  omega
· have A := next_measure' h1
  have B := next_measure' h2
  simp only [optCount] at *
  omega
· have A := next_measure' h1
  have B := next_measure' h2
  simp only [optCount] at *
  omega

/-- Model of `sync2(file1, file2)`: the priming `next` on each reader (a
failure propagates before any merge logic), then the loop. -/
def sync2 (f1 f2 : BedFile) : SyncResult :=
  match f1.next with
  | (.err e, _) => ⟨[], .err e⟩
  | (.panicked, _) => ⟨[], .panicked⟩
  | (.ok r1, f1') =>
    match f2.next with
    | (.err e, _) => ⟨[], .err e⟩
    | (.panicked, _) => ⟨[], .panicked⟩
    | (.ok r2, f2') => sync2Loop r1 r2 f1' f2'

/-- The record the equal-key branch emits: meth and cov are the sums, ratio
is recomputed as their quotient, and the key is taken from the first record
(the keys are identical). -/
def combine (r1 r2 : BedRecord) : BedRecord :=
  { coords := r1.coords, ratio := (r1.meth + r2.meth) / (r1.cov + r2.cov),
    meth := r1.meth + r2.meth, cov := r1.cov + r2.cov }

/-- Pure list-level two-pointer merge: the sequence of records `sync2`
emits when both inputs parse cleanly (`sync2Loop_ok` below proves the
correspondence). -/
def mergeLists : List BedRecord → List BedRecord → List BedRecord
  | [], [] => []
  | r :: rs, [] => r :: mergeLists rs []
  | [], r :: rs => r :: mergeLists [] rs
  | r1 :: rs1, r2 :: rs2 =>
    match BedCoords.cmp r1.coords r2.coords with
    | .eq => combine r1 r2 :: mergeLists rs1 rs2
    | .lt => r1 :: mergeLists rs1 (r2 :: rs2)
    | .gt => r2 :: mergeLists (r1 :: rs1) rs2
termination_by l1 l2 => l1.length + l2.length

/-- Parses every chunk of a file in order, with `parseLine`'s 1-based line
numbers continuing from `lineno` consumed lines; the first failure wins. -/
def parseLines (fname : String) (lineno : Nat) : List String → Except BedError (List BedRecord)
  | [] => .ok []
  | l :: ls =>
    match parseLine fname (lineno + 1) l with
    | .error e => .error e
    | .ok r =>
      match parseLines fname (lineno + 1) ls with
      | .error e => .error e
      | .ok rs => .ok (r :: rs)

/-- The records still to be produced by a reader: none once EOF has been
observed, otherwise the parses of its unread chunks. -/
def fileRecs (bf : BedFile) : Except BedError (List BedRecord) :=
  if bf.at_eof then .ok [] else parseLines bf.filename bf.lineno bf.lines

/-! Order facts for the coordinate-key comparison. -/

theorem lexLt_irrefl : ∀ l : List Char, lexLt l l = false
  | [] => rfl
  | c :: cs => by simp [lexLt, lexLt_irrefl cs]

theorem lexLt_antisymm : ∀ {a b : List Char}, lexLt a b = false → lexLt b a = false → a = b
  | [], [], _, _ => rfl
  | [], _ :: _, h1, _ => by simp [lexLt] at h1
  | _ :: _, [], _, h2 => by simp [lexLt] at h2
  | x :: xs, y :: ys, h1, h2 => by
    by_cases hxy : x < y
    · simp [lexLt, hxy] at h1
    · by_cases hyx : y < x
      · simp [lexLt, hyx] at h2
      · have hx : x = y := le_antisymm (le_of_not_lt hyx) (le_of_not_lt hxy)
        subst hx
        simp only [lexLt, lt_irrefl, if_false] at h1 h2
        rw [lexLt_antisymm h1 h2]

theorem lexLt_trans : ∀ {a b c : List Char},
    lexLt a b = true → lexLt b c = true → lexLt a c = true
  | [], [], _, h1, _ => by simp [lexLt] at h1
  | [], _ :: _, [], _, h2 => by simp [lexLt] at h2
  | [], _ :: _, _ :: _, _, _ => by simp [lexLt]
  | _ :: _, [], _, h1, _ => by simp [lexLt] at h1
  | _ :: _, _ :: _, [], _, h2 => by simp [lexLt] at h2
  | x :: xs, y :: ys, z :: zs, h1, h2 => by
    by_cases hxy : x < y
    · by_cases hyz : y < z
      · simp [lexLt, lt_trans hxy hyz]
      · by_cases hzy : z < y
        · simp [lexLt, hzy, hyz] at h2
        · have hyzeq : y = z := le_antisymm (le_of_not_lt hzy) (le_of_not_lt hyz)
          subst hyzeq
          simp [lexLt, hxy]
    · by_cases hyx : y < x
      · simp [lexLt, hxy, hyx] at h1
      · have hxyeq : x = y := le_antisymm (le_of_not_lt hyx) (le_of_not_lt hxy)
        subst hxyeq
        simp only [lexLt, lt_irrefl, if_false] at h1
        by_cases hxz : x < z
        · simp [lexLt, hxz]
        · by_cases hzx : z < x
          · simp [lexLt, hzx, hxz] at h2
          · have hxzeq : x = z := le_antisymm (le_of_not_lt hzx) (le_of_not_lt hxz)
            subst hxzeq
            simp only [lexLt, lt_irrefl, if_false] at h2 ⊢
            exact lexLt_trans h1 h2

theorem strLt_irrefl (s : String) : strLt s s = false :=
  lexLt_irrefl s.data

theorem strLt_trans {a b c : String} (h1 : strLt a b = true) (h2 : strLt b c = true) :
    strLt a c = true :=
  lexLt_trans h1 h2

theorem strLt_antisymm {a b : String} (h1 : ¬ strLt a b = true) (h2 : ¬ strLt b a = true) :
    a = b :=
  String.ext (lexLt_antisymm (by simpa using h1) (by simpa using h2))

theorem strLt_asymm {a b : String} (h : strLt a b = true) : ¬ strLt b a = true := by
  intro h2
  have := strLt_trans h h2
  rw [strLt_irrefl] at this
  cases this

/-- The strict order `cmp` decides: lexicographic on (chrom, start, end). -/
def keyLt (a b : BedCoords) : Prop :=
  strLt a.chrom b.chrom = true ∨
    (a.chrom = b.chrom ∧ (a.start < b.start ∨ (a.start = b.start ∧ a.«end» < b.«end»)))

theorem cmp_lt_iff (a b : BedCoords) : BedCoords.cmp a b = .lt ↔ keyLt a b := by
  unfold BedCoords.cmp keyLt
  split_ifs with h1 h2 h3 h4 h5 h6
  · simp [h1]
  · simp only [reduceCtorEq, false_iff]
    rintro (hc | ⟨he, _⟩)
    · exact h1 hc
    · rw [he] at h2; rw [strLt_irrefl] at h2; cases h2
  · have he := strLt_antisymm h1 h2
    simp [he, h3]
  · have he := strLt_antisymm h1 h2
    simp only [reduceCtorEq, false_iff]
    rintro (hc | ⟨_, hs | ⟨hse, _⟩⟩)
    · exact h1 hc
    · exact h3 hs
    · omega
  · have he := strLt_antisymm h1 h2
    have hs : a.start = b.start := by omega
    simp [he, hs, h5]
  · have he := strLt_antisymm h1 h2
    simp only [reduceCtorEq, false_iff]
    rintro (hc | ⟨_, hs | ⟨_, hee⟩⟩)
    · exact h1 hc
    · exact h3 hs
    · omega
  · have he := strLt_antisymm h1 h2
    simp only [reduceCtorEq, false_iff]
    rintro (hc | ⟨_, hs | ⟨_, hee⟩⟩)
    · exact h1 hc
    · exact h3 hs
    · exact h5 hee

theorem cmp_gt_iff (a b : BedCoords) : BedCoords.cmp a b = .gt ↔ keyLt b a := by
  unfold BedCoords.cmp keyLt
  split_ifs with h1 h2 h3 h4 h5 h6
  · simp only [reduceCtorEq, false_iff]
    rintro (hc | ⟨he, _⟩)
    · exact strLt_asymm h1 hc
    · rw [he] at h1; rw [strLt_irrefl] at h1; cases h1
  · simp [h2]
  · have he := strLt_antisymm h1 h2
    simp only [reduceCtorEq, false_iff]
    rintro (hc | ⟨_, hs | ⟨hse, _⟩⟩)
    · exact h2 hc
    · omega
    · omega
  · have he := strLt_antisymm h1 h2
    simp [he.symm, h4]
  · have he := strLt_antisymm h1 h2
    simp only [reduceCtorEq, false_iff]
    rintro (hc | ⟨_, hs | ⟨hse, hee⟩⟩)
    · exact h2 hc
    · omega
    · omega
  · have he := strLt_antisymm h1 h2
    have hs : a.start = b.start := by omega
    simp [he.symm, hs.symm, h6]
  · have he := strLt_antisymm h1 h2
    simp only [reduceCtorEq, false_iff]
    rintro (hc | ⟨_, hs | ⟨_, hee⟩⟩)
    · exact h2 hc
    · exact h4 hs
    · exact h6 hee

theorem cmp_eq_iff (a b : BedCoords) : BedCoords.cmp a b = .eq ↔ a = b := by
  constructor
  · intro h
    unfold BedCoords.cmp at h
    split_ifs at h with h1 h2 h3 h4 h5 h6
    all_goals first
    | exact absurd h (by decide)
    | (have he := strLt_antisymm h1 h2
       obtain ⟨ac, as2, ae⟩ := a
       obtain ⟨bc, bs2, be⟩ := b
       simp only at he h3 h4 h5 h6
       simp only [BedCoords.mk.injEq]
       exact ⟨he, by omega, by omega⟩)
  · rintro rfl
    unfold BedCoords.cmp
    simp [strLt_irrefl]

theorem keyLt_trans {a b c : BedCoords} (h1 : keyLt a b) (h2 : keyLt b c) : keyLt a c := by
  unfold keyLt at *
  rcases h1 with hc1 | ⟨he1, hs1⟩ <;> rcases h2 with hc2 | ⟨he2, hs2⟩
  · exact Or.inl (strLt_trans hc1 hc2)
  · rw [he2] at hc1; exact Or.inl hc1
  · rw [he1]; exact Or.inl hc2
  · refine Or.inr ⟨he1.trans he2, ?_⟩
    rcases hs1 with hs1 | ⟨hse1, hee1⟩ <;> rcases hs2 with hs2 | ⟨hse2, hee2⟩
    · exact Or.inl (by omega)
    · exact Or.inl (by omega)
    · exact Or.inl (by omega)
    · exact Or.inr ⟨hse1.trans hse2, by omega⟩

theorem cmp_lt_trans {a b c : BedCoords}
    (h1 : BedCoords.cmp a b = .lt) (h2 : BedCoords.cmp b c = .lt) :
    BedCoords.cmp a c = .lt :=
  (cmp_lt_iff a c).mpr (keyLt_trans ((cmp_lt_iff a b).mp h1) ((cmp_lt_iff b c).mp h2))

theorem cmp_self (a : BedCoords) : BedCoords.cmp a a = .eq :=
  (cmp_eq_iff a a).mpr rfl

theorem cmp_lt_ne {a b : BedCoords} (h : BedCoords.cmp a b = .lt) : a ≠ b := by
  rintro rfl
  rw [cmp_self] at h
  cases h

theorem cmp_gt_to_lt {a b : BedCoords} (h : BedCoords.cmp a b = .gt) :
    BedCoords.cmp b a = .lt :=
  (cmp_lt_iff b a).mpr ((cmp_gt_iff a b).mp h)

theorem cmp_eq_comm {a b : BedCoords} (h : BedCoords.cmp a b = .eq) :
    BedCoords.cmp b a = .eq := by
  rw [cmp_eq_iff] at h ⊢
  exact h.symm

/-! Characterization of one `next` call, by reader shape. -/

/-- Lifts a `parseLine` result to the `next` result it produces. -/
def parseToNext : Except BedError BedRecord → NextResult
  | .ok r => .ok (some r)
  | .error e => .err e

theorem str_length_ne_zero {s : String} (h : s ≠ "") : s.length ≠ 0 := by
  cases s with
  | mk data =>
    cases data with
    | nil => exact absurd rfl h
    | cons c cs => simp [String.length]

theorem next_eof {bf : BedFile} (h : bf.at_eof = true) : bf.next = (.ok none, bf) := by
  simp [BedFile.next, h]

theorem next_nil {bf : BedFile} (h : bf.at_eof = false) (h2 : bf.lines = []) :
    bf.next = (.ok none, { bf with bufsize := 0, at_eof := true }) := by
  simp [BedFile.next, h, h2]

theorem next_cons {bf : BedFile} {line : String} {rest : List String}
    (h : bf.at_eof = false) (h2 : bf.lines = line :: rest) (h3 : line ≠ "") :
    bf.next = (parseToNext (parseLine bf.filename (bf.lineno + 1) line),
               { bf with bufsize := line.length, lineno := bf.lineno + 1,
                         last := some line, lines := rest }) := by
  have hl := str_length_ne_zero h3
  cases hp : parseLine bf.filename (bf.lineno + 1) line <;>
    simp [BedFile.next, h, h2, hl, parseToNext, hp]

theorem nextNoPanic (bf : BedFile) : (bf.next).1 ≠ .panicked := by
  obtain ⟨n, la, fn, ls, b, eof⟩ := bf
  cases eof
  · cases ls with
    | nil => simp [BedFile.next]
    | cons line rest =>
      by_cases h : line.length = 0
      · simp [BedFile.next, h]
      · cases hp : parseLine fn (n + 1) line <;> simp [BedFile.next, h, hp]
  · simp [BedFile.next]

theorem next_ok_none_eof {bf bf' : BedFile} (h : bf.next = (.ok none, bf')) :
    bf'.at_eof = true := by
  by_cases he : bf.at_eof
  · rw [next_eof he] at h
    injection h with hA hB
    subst hB
    exact he
  · have hef : bf.at_eof = false := by simpa using he
    cases hls : bf.lines with
    | nil =>
      rw [next_nil hef hls] at h
      injection h with hA hB
      subst hB
      rfl
    | cons line rest =>
      by_cases hline : line = ""
      · subst hline
        have : bf.next = (.ok none, { bf with bufsize := 0, at_eof := true, lines := rest }) := by
          simp [BedFile.next, hef, hls]
        rw [this] at h
        injection h with hA hB
        subst hB
        rfl
      · rw [next_cons hef hls hline] at h
        cases hp : parseLine bf.filename (bf.lineno + 1) line <;> rw [hp] at h
        · injection h with hA hB
          cases hA
        · injection h with hA hB
          injection hA with hA
          cases hA

theorem fileRecs_eof {bf : BedFile} (h : bf.at_eof = true) : fileRecs bf = .ok [] := by
  simp [fileRecs, h]

/-- Pulling one record relates a reader's record stream to its
successor's: the stream is the pulled record followed by the successor's
stream, and well-formedness is preserved. -/
theorem fileRecs_step {bf bf' : BedFile} {r : Option BedRecord} {l' : List BedRecord}
    (hw : wfFile bf) (h : bf.next = (.ok r, bf')) (h' : fileRecs bf' = .ok l') :
    fileRecs bf = .ok (r.toList ++ l') ∧ wfFile bf' := by
  by_cases he : bf.at_eof
  · rw [next_eof he] at h
    injection h with hA hB
    injection hA with hA
    subst hA
    subst hB
    rw [fileRecs_eof he] at h'
    injection h' with h''
    subst h''
    exact ⟨fileRecs_eof he, hw⟩
  · have hef : bf.at_eof = false := by simpa using he
    cases hls : bf.lines with
    | nil =>
      rw [next_nil hef hls] at h
      injection h with hA hB
      injection hA with hA
      subst hA
      rw [← hB] at h'
      rw [fileRecs_eof rfl] at h'
      injection h' with h''
      subst h''
      constructor
      · simp [fileRecs, hef, hls, parseLines]
      · rw [← hB]
        intro l hl
        exact hw l (by rw [hls] at hl ⊢; exact hl)
    | cons line rest =>
      have hline : line ≠ "" := hw line (by rw [hls]; exact List.mem_cons_self _ _)
      rw [next_cons hef hls hline] at h
      cases hp : parseLine bf.filename (bf.lineno + 1) line <;> rw [hp] at h
      · exact absurd (congrArg Prod.fst h) (by simp [parseToNext])
      · next rec =>
        injection h with hA hB
        injection hA with hA
        subst hA
        have hbf' : bf'.at_eof = false := by rw [← hB]; exact hef
        have hrest : parseLines bf.filename (bf.lineno + 1) rest = .ok l' := by
          rw [fileRecs, hbf'] at h'
          simpa [← hB] using h'
        constructor
        · rw [fileRecs, hef]
          simp only [if_false, Bool.false_eq_true]
          rw [hls]
          simp [parseLines, hp, hrest]
        · rw [← hB]
          intro l hl
          exact hw l (by rw [hls]; exact List.mem_cons_of_mem _ hl)

/-! Step equations for the merge loop, one per reachable source branch. -/

theorem sync2Loop_none_none (f1 f2 : BedFile) :
    sync2Loop none none f1 f2 = ⟨[], .ok⟩ := by
  rw [sync2Loop]

theorem sync2Loop_agg {rec1 rec2 : BedRecord} {r1' r2' : Option BedRecord}
    {f1 f2 f1' f2' : BedFile}
    (hcmp : BedCoords.cmp rec1.coords rec2.coords = .eq)
    (h1 : f1.next = (.ok r1', f1')) (h2 : f2.next = (.ok r2', f2')) :
    sync2Loop (some rec1) (some rec2) f1 f2 =
      consLine (recordLine (combine rec1 rec2)) (sync2Loop r1' r2' f1' f2') := by
  rw [sync2Loop]
  simp only [hcmp]
  split
  · next e snd heq => rw [h1] at heq; cases heq
  · next snd heq => rw [h1] at heq; cases heq
  · next ra fa heq =>
    rw [h1] at heq
    injection heq with hA hB
    injection hA with hA
    subst hA
    subst hB
    split
    · next e snd heq2 => rw [h2] at heq2; cases heq2
    · next snd heq2 => rw [h2] at heq2; cases heq2
    · next rb fb heq2 =>
      rw [h2] at heq2
      injection heq2 with hC hD
      injection hC with hC
      subst hC
      subst hD
      rfl

theorem sync2Loop_agg_err1 {rec1 rec2 : BedRecord} {e : BedError} {snd : BedFile}
    {f1 f2 : BedFile}
    (hcmp : BedCoords.cmp rec1.coords rec2.coords = .eq)
    (h1 : f1.next = (.err e, snd)) :
    sync2Loop (some rec1) (some rec2) f1 f2 =
      ⟨[recordLine (combine rec1 rec2)], .err e⟩ := by
  rw [sync2Loop]
  simp only [hcmp]
  split
  · next e2 snd2 heq =>
    rw [h1] at heq
    injection heq with hA hB
    injection hA with hA
    subst hA
    rfl
  · next snd2 heq => rw [h1] at heq; cases heq
  · next ra fa heq => rw [h1] at heq; cases heq

theorem sync2Loop_agg_err2 {rec1 rec2 : BedRecord} {r1' : Option BedRecord}
    {e : BedError} {snd : BedFile} {f1 f2 f1' : BedFile}
    (hcmp : BedCoords.cmp rec1.coords rec2.coords = .eq)
    (h1 : f1.next = (.ok r1', f1')) (h2 : f2.next = (.err e, snd)) :
    sync2Loop (some rec1) (some rec2) f1 f2 =
      ⟨[recordLine (combine rec1 rec2)], .err e⟩ := by
  rw [sync2Loop]
  simp only [hcmp]
  split
  · next e2 snd2 heq => rw [h1] at heq; cases heq
  · next snd2 heq => rw [h1] at heq; cases heq
  · next ra fa heq =>
    rw [h1] at heq
    injection heq with hA hB
    injection hA with hA
    subst hA
    subst hB
    split
    · next e2 snd2 heq2 =>
      rw [h2] at heq2
      injection heq2 with hC hD
      injection hC with hC
      subst hC
      rfl
    · next snd2 heq2 => rw [h2] at heq2; cases heq2
    · next rb fb heq2 => rw [h2] at heq2; cases heq2

theorem sync2Loop_lt {rec1 rec2 : BedRecord} {r1' : Option BedRecord}
    {f1 f2 f1' : BedFile}
    (hcmp : BedCoords.cmp rec1.coords rec2.coords = .lt)
    (h1 : f1.next = (.ok r1', f1')) :
    sync2Loop (some rec1) (some rec2) f1 f2 =
      consLine (recordLine rec1) (sync2Loop r1' (some rec2) f1' f2) := by
  rw [sync2Loop]
  simp only [hcmp]
  split
  · next e snd heq => rw [h1] at heq; cases heq
  · next snd heq => rw [h1] at heq; cases heq
  · next ra fa heq =>
    rw [h1] at heq
    injection heq with hA hB
    injection hA with hA
    subst hA
    subst hB
    rfl

theorem sync2Loop_lt_err {rec1 rec2 : BedRecord} {e : BedError} {snd : BedFile}
    {f1 f2 : BedFile}
    (hcmp : BedCoords.cmp rec1.coords rec2.coords = .lt)
    (h1 : f1.next = (.err e, snd)) :
    sync2Loop (some rec1) (some rec2) f1 f2 = ⟨[recordLine rec1], .err e⟩ := by
  rw [sync2Loop]
  simp only [hcmp]
  split
  · next e2 snd2 heq =>
    rw [h1] at heq
    injection heq with hA hB
    injection hA with hA
    subst hA
    rfl
  · next snd2 heq => rw [h1] at heq; cases heq
  · next ra fa heq => rw [h1] at heq; cases heq

theorem sync2Loop_gt {rec1 rec2 : BedRecord} {r2' : Option BedRecord}
    {f1 f2 f2' : BedFile}
    (hcmp : BedCoords.cmp rec1.coords rec2.coords = .gt)
    (h2 : f2.next = (.ok r2', f2')) :
    sync2Loop (some rec1) (some rec2) f1 f2 =
      consLine (recordLine rec2) (sync2Loop (some rec1) r2' f1 f2') := by
  rw [sync2Loop]
  simp only [hcmp]
  split
  · next e snd heq => rw [h2] at heq; cases heq
  · next snd heq => rw [h2] at heq; cases heq
  · next rb fb heq =>
    rw [h2] at heq
    injection heq with hA hB
    injection hA with hA
    subst hA
    subst hB
    rfl

theorem sync2Loop_gt_err {rec1 rec2 : BedRecord} {e : BedError} {snd : BedFile}
    {f1 f2 : BedFile}
    (hcmp : BedCoords.cmp rec1.coords rec2.coords = .gt)
    (h2 : f2.next = (.err e, snd)) :
    sync2Loop (some rec1) (some rec2) f1 f2 = ⟨[recordLine rec2], .err e⟩ := by
  rw [sync2Loop]
  simp only [hcmp]
  split
  · next e2 snd2 heq =>
    rw [h2] at heq
    injection heq with hA hB
    injection hA with hA
    subst hA
    rfl
  · next snd2 heq => rw [h2] at heq; cases heq
  · next rb fb heq => rw [h2] at heq; cases heq

theorem sync2Loop_some_none {rec : BedRecord} {r1' r2' : Option BedRecord}
    {f1 f2 f1' f2' : BedFile}
    (h1 : f1.next = (.ok r1', f1')) (h2 : f2.next = (.ok r2', f2')) :
    sync2Loop (some rec) none f1 f2 =
      consLine (recordLine rec) (sync2Loop r1' r2' f1' f2') := by
  rw [sync2Loop]
  split
  · next e snd heq => rw [h1] at heq; cases heq
  · next snd heq => rw [h1] at heq; cases heq
  · next ra fa heq =>
    rw [h1] at heq
    injection heq with hA hB
    injection hA with hA
    subst hA
    subst hB
    split
    · next e snd heq2 => rw [h2] at heq2; cases heq2
    · next snd heq2 => rw [h2] at heq2; cases heq2
    · next rb fb heq2 =>
      rw [h2] at heq2
      injection heq2 with hC hD
      injection hC with hC
      subst hC
      subst hD
      rfl

theorem sync2Loop_some_none_err1 {rec : BedRecord} {e : BedError} {snd : BedFile}
    {f1 f2 : BedFile} (h1 : f1.next = (.err e, snd)) :
    sync2Loop (some rec) none f1 f2 = ⟨[recordLine rec], .err e⟩ := by
  rw [sync2Loop]
  split
  · next e2 snd2 heq =>
    rw [h1] at heq
    injection heq with hA hB
    injection hA with hA
    subst hA
    rfl
  · next snd2 heq => rw [h1] at heq; cases heq
  · next ra fa heq => rw [h1] at heq; cases heq

theorem sync2Loop_some_none_err2 {rec : BedRecord} {r1' : Option BedRecord}
    {e : BedError} {snd : BedFile} {f1 f2 f1' : BedFile}
    (h1 : f1.next = (.ok r1', f1')) (h2 : f2.next = (.err e, snd)) :
    sync2Loop (some rec) none f1 f2 = ⟨[recordLine rec], .err e⟩ := by
  rw [sync2Loop]
  split
  · next e2 snd2 heq => rw [h1] at heq; cases heq
  · next snd2 heq => rw [h1] at heq; cases heq
  · next ra fa heq =>
    rw [h1] at heq
    injection heq with hA hB
    injection hA with hA
    subst hA
    subst hB
    split
    · next e2 snd2 heq2 =>
      rw [h2] at heq2
      injection heq2 with hC hD
      injection hC with hC
      subst hC
      rfl
    · next snd2 heq2 => rw [h2] at heq2; cases heq2
    · next rb fb heq2 => rw [h2] at heq2; cases heq2

theorem sync2Loop_none_some {rec : BedRecord} {r1' r2' : Option BedRecord}
    {f1 f2 f1' f2' : BedFile}
    (h1 : f1.next = (.ok r1', f1')) (h2 : f2.next = (.ok r2', f2')) :
    sync2Loop none (some rec) f1 f2 =
      consLine (recordLine rec) (sync2Loop r1' r2' f1' f2') := by
  rw [sync2Loop]
  split
  · next e snd heq => rw [h1] at heq; cases heq
  · next snd heq => rw [h1] at heq; cases heq
  · next ra fa heq =>
    rw [h1] at heq
    injection heq with hA hB
    injection hA with hA
    subst hA
    subst hB
    split
    · next e snd heq2 => rw [h2] at heq2; cases heq2
    · next snd heq2 => rw [h2] at heq2; cases heq2
    · next rb fb heq2 =>
      rw [h2] at heq2
      injection heq2 with hC hD
      injection hC with hC
      subst hC
      subst hD
      rfl

theorem sync2Loop_none_some_err1 {rec : BedRecord} {e : BedError} {snd : BedFile}
    {f1 f2 : BedFile} (h1 : f1.next = (.err e, snd)) :
    sync2Loop none (some rec) f1 f2 = ⟨[recordLine rec], .err e⟩ := by
  rw [sync2Loop]
  split
  · next e2 snd2 heq =>
    rw [h1] at heq
    injection heq with hA hB
    injection hA with hA
    subst hA
    rfl
  · next snd2 heq => rw [h1] at heq; cases heq
  · next ra fa heq => rw [h1] at heq; cases heq

theorem sync2Loop_none_some_err2 {rec : BedRecord} {r1' : Option BedRecord}
    {e : BedError} {snd : BedFile} {f1 f2 f1' : BedFile}
    (h1 : f1.next = (.ok r1', f1')) (h2 : f2.next = (.err e, snd)) :
    sync2Loop none (some rec) f1 f2 = ⟨[recordLine rec], .err e⟩ := by
  rw [sync2Loop]
  split
  · next e2 snd2 heq => rw [h1] at heq; cases heq
  · next snd2 heq => rw [h1] at heq; cases heq
  · next ra fa heq =>
    rw [h1] at heq
    injection heq with hA hB
    injection hA with hA
    subst hA
    subst hB
    split
    · next e2 snd2 heq2 =>
      rw [h2] at heq2
      injection heq2 with hC hD
      injection hC with hC
      subst hC
      rfl
    · next snd2 heq2 => rw [h2] at heq2; cases heq2
    · next rb fb heq2 => rw [h2] at heq2; cases heq2

theorem next_empty {bf : BedFile} {rest : List String}
    (h : bf.at_eof = false) (h2 : bf.lines = "" :: rest) :
    bf.next = (.ok none, { bf with bufsize := 0, at_eof := true, lines := rest }) := by
  simp [BedFile.next, h, h2]

theorem next_wf {bf : BedFile} {res : NextResult} {bf' : BedFile}
    (hw : wfFile bf) (h : bf.next = (res, bf')) : wfFile bf' := by
  by_cases he : bf.at_eof
  · rw [next_eof he] at h
    injection h with hA hB
    subst hB
    exact hw
  · have hef : bf.at_eof = false := by simpa using he
    cases hls : bf.lines with
    | nil =>
      rw [next_nil hef hls] at h
      injection h with hA hB
      subst hB
      intro l hl
      exact hw l hl
    | cons line rest =>
      by_cases hline : line = ""
      · subst hline
        rw [next_empty hef hls] at h
        injection h with hA hB
        subst hB
        intro l hl
        exact hw l (by rw [hls]; exact List.mem_cons_of_mem _ hl)
      · rw [next_cons hef hls hline] at h
        injection h with hA hB
        subst hB
        intro l hl
        exact hw l (by rw [hls]; exact List.mem_cons_of_mem _ hl)

theorem consLine_ok {s : String} {R : SyncResult} {out : List String}
    (h : consLine s R = ⟨out, .ok⟩) :
    R = ⟨R.out, .ok⟩ ∧ out = s :: R.out := by
  obtain ⟨ro, rr⟩ := R
  injection h with hO hR
  dsimp only at hO hR ⊢
  subst hR
  exact ⟨rfl, hO.symm⟩

theorem mergeLists_nil_right : ∀ l : List BedRecord, mergeLists l [] = l
  | [] => by rw [mergeLists]
  | r :: rs => by rw [mergeLists, mergeLists_nil_right rs]

theorem mergeLists_nil_left : ∀ l : List BedRecord, mergeLists [] l = l
  | [] => by rw [mergeLists]
  | r :: rs => by rw [mergeLists, mergeLists_nil_left rs]

theorem mergeLists_cons_cons (r1 r2 : BedRecord) (rs1 rs2 : List BedRecord) :
    mergeLists (r1 :: rs1) (r2 :: rs2) =
      match BedCoords.cmp r1.coords r2.coords with
      | .eq => combine r1 r2 :: mergeLists rs1 rs2
      | .lt => r1 :: mergeLists rs1 (r2 :: rs2)
      | .gt => r2 :: mergeLists (r1 :: rs1) rs2 := by
  rw [mergeLists]

/-- The merge loop never reaches a panic: the `unwrap` in the equal-key
branch and the readers' `unreachable!` are both dead. -/
theorem sync2LoopNoPanic (r1 r2 : Option BedRecord) (f1 f2 : BedFile) :
    (sync2Loop r1 r2 f1 f2).res ≠ .panicked := by
  induction r1, r2, f1, f2 using sync2Loop.induct with
  | case1 f1 f2 rec1 rec2 hcmp e snd h1 =>
    rw [sync2Loop_agg_err1 hcmp h1]
    simp
  | case2 f1 f2 rec1 rec2 hcmp snd h1 =>
    exact absurd (congrArg Prod.fst h1) (nextNoPanic f1)
  | case3 f1 f2 rec1 rec2 hcmp r1' f1' h1 e snd h2 =>
    rw [sync2Loop_agg_err2 hcmp h1 h2]
    simp
  | case4 f1 f2 rec1 rec2 hcmp r1' f1' h1 snd h2 =>
    exact absurd (congrArg Prod.fst h2) (nextNoPanic f2)
  | case5 f1 f2 rec1 rec2 hcmp r1' f1' h1 r2' f2' h2 ih =>
    rw [sync2Loop_agg hcmp h1 h2]
    simpa [consLine] using ih
  | case6 f1 f2 rec1 rec2 hcmp e snd h1 =>
    rw [sync2Loop_lt_err hcmp h1]
    simp
  | case7 f1 f2 rec1 rec2 hcmp snd h1 =>
    exact absurd (congrArg Prod.fst h1) (nextNoPanic f1)
  | case8 f1 f2 rec1 rec2 hcmp r1' f1' h1 ih =>
    rw [sync2Loop_lt hcmp h1]
    simpa [consLine] using ih
  | case9 f1 f2 rec1 rec2 hcmp e snd h2 =>
    rw [sync2Loop_gt_err hcmp h2]
    simp
  | case10 f1 f2 rec1 rec2 hcmp snd h2 =>
    exact absurd (congrArg Prod.fst h2) (nextNoPanic f2)
  | case11 f1 f2 rec1 rec2 hcmp r2' f2' h2 ih =>
    rw [sync2Loop_gt hcmp h2]
    simpa [consLine] using ih
  | case12 f1 f2 rec e snd h1 =>
    rw [sync2Loop_some_none_err1 h1]
    simp
  | case13 f1 f2 rec snd h1 =>
    exact absurd (congrArg Prod.fst h1) (nextNoPanic f1)
  | case14 f1 f2 rec r1' f1' h1 e snd h2 =>
    rw [sync2Loop_some_none_err2 h1 h2]
    simp
  | case15 f1 f2 rec r1' f1' h1 snd h2 =>
    exact absurd (congrArg Prod.fst h2) (nextNoPanic f2)
  | case16 f1 f2 rec r1' f1' h1 r2' f2' h2 ih =>
    rw [sync2Loop_some_none h1 h2]
    simpa [consLine] using ih
  | case17 f1 f2 rec e snd h1 =>
    rw [sync2Loop_none_some_err1 h1]
    simp
  | case18 f1 f2 rec snd h1 =>
    exact absurd (congrArg Prod.fst h1) (nextNoPanic f1)
  | case19 f1 f2 rec r1' f1' h1 e snd h2 =>
    rw [sync2Loop_none_some_err2 h1 h2]
    simp
  | case20 f1 f2 rec r1' f1' h1 snd h2 =>
    exact absurd (congrArg Prod.fst h2) (nextNoPanic f2)
  | case21 f1 f2 rec r1' f1' h1 r2' f2' h2 ih =>
    rw [sync2Loop_none_some h1 h2]
    simpa [consLine] using ih
  | case22 f1 f2 =>
    rw [sync2Loop_none_none]
    simp

/-- The whole merge never reaches a panic. -/
theorem sync2NoPanic (f1 f2 : BedFile) : (sync2 f1 f2).res ≠ .panicked := by
  rw [sync2]
  split
  · next e snd heq => simp
  · next snd heq => exact absurd (congrArg Prod.fst heq) (nextNoPanic f1)
  · next r1 f1' heq =>
    split
    · next e snd heq2 => simp
    · next snd heq2 => exact absurd (congrArg Prod.fst heq2) (nextNoPanic f2)
    · next r2 f2' heq2 => exact sync2LoopNoPanic r1 r2 f1' f2'

/-- Refinement of the merge loop by the pure list merge: a clean loop run
prints exactly the rendering of `mergeLists` applied to the pending records
followed by the record streams of the two readers. -/
theorem sync2Loop_ok (r1 r2 : Option BedRecord) (f1 f2 : BedFile) :
    ∀ out : List String, wfFile f1 → wfFile f2 →
    (r1 = none → f1.at_eof = true) → (r2 = none → f2.at_eof = true) →
    sync2Loop r1 r2 f1 f2 = ⟨out, .ok⟩ →
    ∃ l1 l2, fileRecs f1 = .ok l1 ∧ fileRecs f2 = .ok l2 ∧
      out = (mergeLists (r1.toList ++ l1) (r2.toList ++ l2)).map recordLine := by
  induction r1, r2, f1, f2 using sync2Loop.induct with
  | case1 f1 f2 rec1 rec2 hcmp e snd h1 =>
    intro out w1 w2 e1 e2 hrun
    rw [sync2Loop_agg_err1 hcmp h1] at hrun
    injection hrun with hO hR
    cases hR
  | case2 f1 f2 rec1 rec2 hcmp snd h1 =>
    intro out w1 w2 e1 e2 hrun
    exact absurd (congrArg Prod.fst h1) (nextNoPanic f1)
  | case3 f1 f2 rec1 rec2 hcmp r1' f1' h1 e snd h2 =>
    intro out w1 w2 e1 e2 hrun
    rw [sync2Loop_agg_err2 hcmp h1 h2] at hrun
    injection hrun with hO hR
    cases hR
  | case4 f1 f2 rec1 rec2 hcmp r1' f1' h1 snd h2 =>
    intro out w1 w2 e1 e2 hrun
    exact absurd (congrArg Prod.fst h2) (nextNoPanic f2)
  | case5 f1 f2 rec1 rec2 hcmp r1' f1' h1 r2' f2' h2 ih =>
    intro out w1 w2 e1 e2 hrun
    rw [sync2Loop_agg hcmp h1 h2] at hrun
    obtain ⟨hR, hout⟩ := consLine_ok hrun
    obtain ⟨l1', l2', hf1', hf2', hmap⟩ :=
      ih _ (next_wf w1 h1) (next_wf w2 h2)
        (fun hn => next_ok_none_eof (hn ▸ h1)) (fun hn => next_ok_none_eof (hn ▸ h2)) hR
    obtain ⟨hf1, _⟩ := fileRecs_step w1 h1 hf1'
    obtain ⟨hf2, _⟩ := fileRecs_step w2 h2 hf2'
    refine ⟨r1'.toList ++ l1', r2'.toList ++ l2', hf1, hf2, ?_⟩
    rw [hout, hmap]
    simp [mergeLists_cons_cons, hcmp]
  | case6 f1 f2 rec1 rec2 hcmp e snd h1 =>
    intro out w1 w2 e1 e2 hrun
    rw [sync2Loop_lt_err hcmp h1] at hrun
    injection hrun with hO hR
    cases hR
  | case7 f1 f2 rec1 rec2 hcmp snd h1 =>
    intro out w1 w2 e1 e2 hrun
    exact absurd (congrArg Prod.fst h1) (nextNoPanic f1)
  | case8 f1 f2 rec1 rec2 hcmp r1' f1' h1 ih =>
    intro out w1 w2 e1 e2 hrun
    rw [sync2Loop_lt hcmp h1] at hrun
    obtain ⟨hR, hout⟩ := consLine_ok hrun
    obtain ⟨l1', l2, hf1', hf2, hmap⟩ :=
      ih _ (next_wf w1 h1) w2
        (fun hn => next_ok_none_eof (hn ▸ h1)) (fun hn => Option.noConfusion hn) hR
    obtain ⟨hf1, _⟩ := fileRecs_step w1 h1 hf1'
    refine ⟨r1'.toList ++ l1', l2, hf1, hf2, ?_⟩
    rw [hout, hmap]
    simp [mergeLists_cons_cons, hcmp]
  | case9 f1 f2 rec1 rec2 hcmp e snd h2 =>
    intro out w1 w2 e1 e2 hrun
    rw [sync2Loop_gt_err hcmp h2] at hrun
    injection hrun with hO hR
    cases hR
  | case10 f1 f2 rec1 rec2 hcmp snd h2 =>
    intro out w1 w2 e1 e2 hrun
    exact absurd (congrArg Prod.fst h2) (nextNoPanic f2)
  | case11 f1 f2 rec1 rec2 hcmp r2' f2' h2 ih =>
    intro out w1 w2 e1 e2 hrun
    rw [sync2Loop_gt hcmp h2] at hrun
    obtain ⟨hR, hout⟩ := consLine_ok hrun
    obtain ⟨l1, l2', hf1, hf2', hmap⟩ :=
      ih _ w1 (next_wf w2 h2)
        (fun hn => Option.noConfusion hn) (fun hn => next_ok_none_eof (hn ▸ h2)) hR
    obtain ⟨hf2, _⟩ := fileRecs_step w2 h2 hf2'
    refine ⟨l1, r2'.toList ++ l2', hf1, hf2, ?_⟩
    rw [hout, hmap]
    simp [mergeLists_cons_cons, hcmp]
  | case12 f1 f2 rec e snd h1 =>
    intro out w1 w2 e1 e2 hrun
    rw [sync2Loop_some_none_err1 h1] at hrun
    injection hrun with hO hR
    cases hR
  | case13 f1 f2 rec snd h1 =>
    intro out w1 w2 e1 e2 hrun
    exact absurd (congrArg Prod.fst h1) (nextNoPanic f1)
  | case14 f1 f2 rec r1' f1' h1 e snd h2 =>
    intro out w1 w2 e1 e2 hrun
    rw [sync2Loop_some_none_err2 h1 h2] at hrun
    injection hrun with hO hR
    cases hR
  | case15 f1 f2 rec r1' f1' h1 snd h2 =>
    intro out w1 w2 e1 e2 hrun
    exact absurd (congrArg Prod.fst h2) (nextNoPanic f2)
  | case16 f1 f2 rec r1' f1' h1 r2' f2' h2 ih =>
    intro out w1 w2 e1 e2 hrun
    have hef2 : f2.at_eof = true := e2 rfl
    rw [next_eof hef2] at h2
    injection h2 with hA hB
    injection hA with hA
    subst hA
    subst hB
    rw [sync2Loop_some_none h1 (next_eof hef2)] at hrun
    obtain ⟨hR, hout⟩ := consLine_ok hrun
    obtain ⟨l1', l2', hf1', hf2', hmap⟩ :=
      ih _ (next_wf w1 h1) w2
        (fun hn => next_ok_none_eof (hn ▸ h1)) (fun _ => hef2) hR
    rw [fileRecs_eof hef2] at hf2'
    injection hf2' with hl2
    subst hl2
    obtain ⟨hf1, _⟩ := fileRecs_step w1 h1 hf1'
    refine ⟨r1'.toList ++ l1', [], hf1, fileRecs_eof hef2, ?_⟩
    rw [hout, hmap]
    simp [mergeLists_nil_right]
  | case17 f1 f2 rec e snd h1 =>
    intro out w1 w2 e1 e2 hrun
    rw [sync2Loop_none_some_err1 h1] at hrun
    injection hrun with hO hR
    cases hR
  | case18 f1 f2 rec snd h1 =>
    intro out w1 w2 e1 e2 hrun
    exact absurd (congrArg Prod.fst h1) (nextNoPanic f1)
  | case19 f1 f2 rec r1' f1' h1 e snd h2 =>
    intro out w1 w2 e1 e2 hrun
    rw [sync2Loop_none_some_err2 h1 h2] at hrun
    injection hrun with hO hR
    cases hR
  | case20 f1 f2 rec r1' f1' h1 snd h2 =>
    intro out w1 w2 e1 e2 hrun
    exact absurd (congrArg Prod.fst h2) (nextNoPanic f2)
  | case21 f1 f2 rec r1' f1' h1 r2' f2' h2 ih =>
    intro out w1 w2 e1 e2 hrun
    have hef1 : f1.at_eof = true := e1 rfl
    rw [next_eof hef1] at h1
    injection h1 with hA hB
    injection hA with hA
    subst hA
    subst hB
    rw [sync2Loop_none_some (next_eof hef1) h2] at hrun
    obtain ⟨hR, hout⟩ := consLine_ok hrun
    obtain ⟨l1', l2', hf1', hf2', hmap⟩ :=
      ih _ w1 (next_wf w2 h2)
        (fun _ => hef1) (fun hn => next_ok_none_eof (hn ▸ h2)) hR
    rw [fileRecs_eof hef1] at hf1'
    injection hf1' with hl1
    subst hl1
    obtain ⟨hf2, _⟩ := fileRecs_step w2 h2 hf2'
    refine ⟨[], r2'.toList ++ l2', fileRecs_eof hef1, hf2, ?_⟩
    rw [hout, hmap]
    simp [mergeLists_nil_left]
  | case22 f1 f2 =>
    intro out w1 w2 e1 e2 hrun
    rw [sync2Loop_none_none] at hrun
    injection hrun with hO hR
    refine ⟨[], [], fileRecs_eof (e1 rfl), fileRecs_eof (e2 rfl), ?_⟩
    rw [← hO]
    simp [mergeLists]

/-- Refinement of `sync2`: a clean run prints exactly the rendering of the
pure list merge of the two files' parsed record streams. -/
theorem sync2_ok {f1 f2 : BedFile} {out : List String}
    (w1 : wfFile f1) (w2 : wfFile f2)
    (h : sync2 f1 f2 = ⟨out, .ok⟩) :
    ∃ l1 l2, fileRecs f1 = .ok l1 ∧ fileRecs f2 = .ok l2 ∧
      out = (mergeLists l1 l2).map recordLine := by
  rw [sync2] at h
  split at h
  · next e snd heq =>
    injection h with hO hR
    cases hR
  · next snd heq => exact absurd (congrArg Prod.fst heq) (nextNoPanic f1)
  · next r1 f1' heq =>
    split at h
    · next e snd heq2 =>
      injection h with hO hR
      cases hR
    · next snd heq2 => exact absurd (congrArg Prod.fst heq2) (nextNoPanic f2)
    · next r2 f2' heq2 =>
      obtain ⟨l1', l2', hf1', hf2', hmap⟩ :=
        sync2Loop_ok r1 r2 f1' f2' out (next_wf w1 heq) (next_wf w2 heq2)
          (fun hn => next_ok_none_eof (hn ▸ heq)) (fun hn => next_ok_none_eof (hn ▸ heq2)) h
      obtain ⟨hf1, _⟩ := fileRecs_step w1 heq hf1'
      obtain ⟨hf2, _⟩ := fileRecs_step w2 heq2 hf2'
      exact ⟨r1.toList ++ l1', r2.toList ++ l2', hf1, hf2, hmap⟩

/-! Properties of the pure list merge. -/

/-- Strict ascending coordinate-key order between records, as the code's
`cmp` decides it. -/
def recLt (a b : BedRecord) : Prop :=
  BedCoords.cmp a.coords b.coords = .lt

instance : DecidableRel recLt := fun a b =>
  inferInstanceAs (Decidable (BedCoords.cmp a.coords b.coords = .lt))

/-- The merged key set is the union of the input key sets. -/
theorem keys_mergeLists : ∀ (l1 l2 : List BedRecord) (k : BedCoords),
    k ∈ (mergeLists l1 l2).map BedRecord.coords ↔
      k ∈ l1.map BedRecord.coords ∨ k ∈ l2.map BedRecord.coords := by
  intro l1 l2
  induction l1, l2 using mergeLists.induct with
  | case1 => intro k; simp [mergeLists]
  | case2 r rs ih => intro k; simp [mergeLists_nil_right]
  | case3 r rs ih => intro k; simp [mergeLists_nil_left]
  | case4 r1 rs1 r2 rs2 hcmp ih =>
    intro k
    have hc : r1.coords = r2.coords := (cmp_eq_iff _ _).mp hcmp
    simp only [mergeLists_cons_cons, hcmp]
    simp only [List.map_cons, List.mem_cons, ih k, combine, hc]
    tauto
  | case5 r1 rs1 r2 rs2 hcmp ih =>
    intro k
    simp only [mergeLists_cons_cons, hcmp]
    simp only [List.map_cons, List.mem_cons, ih k]
    tauto
  | case6 r1 rs1 r2 rs2 hcmp ih =>
    intro k
    simp only [mergeLists_cons_cons, hcmp]
    simp only [List.map_cons, List.mem_cons, ih k]
    tauto

theorem mem_mergeLists_key (l1 l2 : List BedRecord) {y : BedRecord}
    (hy : y ∈ mergeLists l1 l2) :
    (∃ z ∈ l1, z.coords = y.coords) ∨ ∃ z ∈ l2, z.coords = y.coords := by
  have hk := (keys_mergeLists l1 l2 y.coords).mp (List.mem_map_of_mem _ hy)
  rcases hk with h | h
  · left
    obtain ⟨z, hz, hzc⟩ := List.mem_map.mp h
    exact ⟨z, hz, hzc⟩
  · right
    obtain ⟨z, hz, hzc⟩ := List.mem_map.mp h
    exact ⟨z, hz, hzc⟩

/-- Merging two strictly key-sorted lists yields a strictly key-sorted
list. -/
theorem mergeLists_pairwise : ∀ l1 l2 : List BedRecord,
    List.Pairwise recLt l1 → List.Pairwise recLt l2 →
    List.Pairwise recLt (mergeLists l1 l2) := by
  intro l1 l2
  induction l1, l2 using mergeLists.induct with
  | case1 => intro _ _; simp [mergeLists]
  | case2 r rs ih => intro h1 _; simpa [mergeLists_nil_right] using h1
  | case3 r rs ih => intro _ h2; simpa [mergeLists_nil_left] using h2
  | case4 r1 rs1 r2 rs2 hcmp ih =>
    intro h1 h2
    have hc : r1.coords = r2.coords := (cmp_eq_iff _ _).mp hcmp
    rw [List.pairwise_cons] at h1 h2
    simp only [mergeLists_cons_cons, hcmp]
    rw [List.pairwise_cons]
    refine ⟨?_, ih h1.2 h2.2⟩
    intro y hy
    rcases mem_mergeLists_key rs1 rs2 hy with ⟨z, hz, hzc⟩ | ⟨z, hz, hzc⟩
    · have hlt := h1.1 z hz
      unfold recLt at hlt ⊢
      rw [hzc] at hlt
      simpa [combine] using hlt
    · have hlt := h2.1 z hz
      unfold recLt at hlt ⊢
      rw [hzc] at hlt
      simp only [combine]
      rw [hc]
      exact hlt
  | case5 r1 rs1 r2 rs2 hcmp ih =>
    intro h1 h2
    rw [List.pairwise_cons] at h1
    simp only [mergeLists_cons_cons, hcmp]
    rw [List.pairwise_cons]
    refine ⟨?_, ih h1.2 h2⟩
    intro y hy
    rcases mem_mergeLists_key rs1 (r2 :: rs2) hy with ⟨z, hz, hzc⟩ | ⟨z, hz, hzc⟩
    · have hlt := h1.1 z hz
      unfold recLt at hlt ⊢
      rw [hzc] at hlt
      exact hlt
    · rcases List.mem_cons.mp hz with rfl | hz2
      · unfold recLt
        rw [← hzc]
        exact hcmp
      · have hlt := (List.pairwise_cons.mp h2).1 z hz2
        unfold recLt at hlt ⊢
        rw [hzc] at hlt
        exact cmp_lt_trans hcmp hlt
  | case6 r1 rs1 r2 rs2 hcmp ih =>
    intro h1 h2
    rw [List.pairwise_cons] at h2
    simp only [mergeLists_cons_cons, hcmp]
    rw [List.pairwise_cons]
    refine ⟨?_, ih h1 h2.2⟩
    intro y hy
    rcases mem_mergeLists_key (r1 :: rs1) rs2 hy with ⟨z, hz, hzc⟩ | ⟨z, hz, hzc⟩
    · rcases List.mem_cons.mp hz with rfl | hz2
      · unfold recLt
        rw [← hzc]
        exact cmp_gt_to_lt hcmp
      · have hlt := (List.pairwise_cons.mp h1).1 z hz2
        unfold recLt at hlt ⊢
        rw [hzc] at hlt
        exact cmp_lt_trans (cmp_gt_to_lt hcmp) hlt
    · have hlt := h2.1 z hz
      unfold recLt at hlt ⊢
      rw [hzc] at hlt
      exact hlt

theorem mergeLists_nodup_keys {l1 l2 : List BedRecord}
    (h : List.Pairwise recLt (mergeLists l1 l2)) :
    ((mergeLists l1 l2).map BedRecord.coords).Nodup :=
  List.Pairwise.map _ (fun a b hab => cmp_lt_ne hab) h

/-- With strictly sorted inputs, the number of merged records is the
cardinality of the union of the two key sets. -/
theorem mergeLists_length {l1 l2 : List BedRecord}
    (h1 : List.Pairwise recLt l1) (h2 : List.Pairwise recLt l2) :
    (mergeLists l1 l2).length =
      ((l1.map BedRecord.coords ++ l2.map BedRecord.coords).toFinset).card := by
  have hp := mergeLists_pairwise l1 l2 h1 h2
  have hnd := mergeLists_nodup_keys hp
  have hlen : (mergeLists l1 l2).length =
      ((mergeLists l1 l2).map BedRecord.coords).length := by simp
  rw [hlen, ← List.toFinset_card_of_nodup hnd]
  congr 1
  ext k
  simp only [List.mem_toFinset, List.mem_append]
  exact keys_mergeLists l1 l2 k

/-- With strictly sorted inputs, a key present in both sides is emitted as
the `combine` of its two records. -/
theorem mergeLists_agg : ∀ l1 l2 : List BedRecord,
    List.Pairwise recLt l1 → List.Pairwise recLt l2 →
    ∀ {r1 r2 : BedRecord}, r1 ∈ l1 → r2 ∈ l2 → r1.coords = r2.coords →
    combine r1 r2 ∈ mergeLists l1 l2 := by
  intro l1 l2
  induction l1, l2 using mergeLists.induct with
  | case1 => intro _ _ r1 r2 hm1 _ _; simp at hm1
  | case2 r rs ih => intro _ _ r1 r2 _ hm2 _; simp at hm2
  | case3 r rs ih => intro _ _ r1 r2 hm1 _ _; simp at hm1
  | case4 a rs1 b rs2 hcmp ih =>
    intro h1 h2 r1 r2 hm1 hm2 hk
    have hab : a.coords = b.coords := (cmp_eq_iff _ _).mp hcmp
    simp only [mergeLists_cons_cons, hcmp]
    rcases List.mem_cons.mp hm1 with rfl | hm1'
    · rcases List.mem_cons.mp hm2 with rfl | hm2'
      · exact List.mem_cons_self _ _
      · have hlt := (List.pairwise_cons.mp h2).1 r2 hm2'
        unfold recLt at hlt
        rw [← hk, ← hab, cmp_self] at hlt
        cases hlt
    · rcases List.mem_cons.mp hm2 with rfl | hm2'
      · have hlt := (List.pairwise_cons.mp h1).1 r1 hm1'
        unfold recLt at hlt
        rw [hk, ← hab, cmp_self] at hlt
        cases hlt
      · exact List.mem_cons_of_mem _
          (ih (List.pairwise_cons.mp h1).2 (List.pairwise_cons.mp h2).2 hm1' hm2' hk)
  | case5 a rs1 b rs2 hcmp ih =>
    intro h1 h2 r1 r2 hm1 hm2 hk
    simp only [mergeLists_cons_cons, hcmp]
    rcases List.mem_cons.mp hm1 with rfl | hm1'
    · rcases List.mem_cons.mp hm2 with rfl | hm2'
      · rw [hk, cmp_self] at hcmp
        cases hcmp
      · have hlt := (List.pairwise_cons.mp h2).1 r2 hm2'
        unfold recLt at hlt
        have htr := cmp_lt_trans hcmp hlt
        rw [hk, cmp_self] at htr
        cases htr
    · exact List.mem_cons_of_mem _ (ih (List.pairwise_cons.mp h1).2 h2 hm1' hm2 hk)
  | case6 a rs1 b rs2 hcmp ih =>
    intro h1 h2 r1 r2 hm1 hm2 hk
    simp only [mergeLists_cons_cons, hcmp]
    rcases List.mem_cons.mp hm2 with rfl | hm2'
    · have hba := cmp_gt_to_lt hcmp
      rcases List.mem_cons.mp hm1 with rfl | hm1'
      · rw [hk, cmp_self] at hcmp
        cases hcmp
      · have hlt := (List.pairwise_cons.mp h1).1 r1 hm1'
        unfold recLt at hlt
        have htr := cmp_lt_trans hba hlt
        rw [hk] at htr
        rw [cmp_self] at htr
        cases htr
    · exact List.mem_cons_of_mem _ (ih h1 (List.pairwise_cons.mp h2).2 hm1 hm2' hk)

/-- A record whose key the other input lacks passes through unchanged
(left input; no sortedness required). -/
theorem mergeLists_pass_left : ∀ l1 l2 : List BedRecord, ∀ {r : BedRecord},
    r ∈ l1 → (∀ z ∈ l2, z.coords ≠ r.coords) → r ∈ mergeLists l1 l2 := by
  intro l1 l2
  induction l1, l2 using mergeLists.induct with
  | case1 => intro r hm _; simp at hm
  | case2 a rs ih => intro r hm _; rw [mergeLists_nil_right]; exact hm
  | case3 a rs ih => intro r hm _; simp at hm
  | case4 a rs1 b rs2 hcmp ih =>
    intro r hm hz
    have hab : a.coords = b.coords := (cmp_eq_iff _ _).mp hcmp
    simp only [mergeLists_cons_cons, hcmp]
    rcases List.mem_cons.mp hm with rfl | hm'
    · exact absurd hab.symm (hz b (List.mem_cons_self _ _))
    · exact List.mem_cons_of_mem _
        (ih hm' (fun z hzz => hz z (List.mem_cons_of_mem _ hzz)))
  | case5 a rs1 b rs2 hcmp ih =>
    intro r hm hz
    simp only [mergeLists_cons_cons, hcmp]
    rcases List.mem_cons.mp hm with rfl | hm'
    · exact List.mem_cons_self _ _
    · exact List.mem_cons_of_mem _ (ih hm' hz)
  | case6 a rs1 b rs2 hcmp ih =>
    intro r hm hz
    simp only [mergeLists_cons_cons, hcmp]
    exact List.mem_cons_of_mem _
      (ih hm (fun z hzz => hz z (List.mem_cons_of_mem _ hzz)))

/-- A record whose key the other input lacks passes through unchanged
(right input; no sortedness required). -/
theorem mergeLists_pass_right : ∀ l1 l2 : List BedRecord, ∀ {r : BedRecord},
    r ∈ l2 → (∀ z ∈ l1, z.coords ≠ r.coords) → r ∈ mergeLists l1 l2 := by
  intro l1 l2
  induction l1, l2 using mergeLists.induct with
  | case1 => intro r hm _; simp at hm
  | case2 a rs ih => intro r hm _; simp at hm
  | case3 a rs ih => intro r hm _; rw [mergeLists_nil_left]; exact hm
  | case4 a rs1 b rs2 hcmp ih =>
    intro r hm hz
    have hab : a.coords = b.coords := (cmp_eq_iff _ _).mp hcmp
    simp only [mergeLists_cons_cons, hcmp]
    rcases List.mem_cons.mp hm with rfl | hm'
    · exact absurd hab (hz a (List.mem_cons_self _ _))
    · exact List.mem_cons_of_mem _
        (ih hm' (fun z hzz => hz z (List.mem_cons_of_mem _ hzz)))
  | case5 a rs1 b rs2 hcmp ih =>
    intro r hm hz
    simp only [mergeLists_cons_cons, hcmp]
    exact List.mem_cons_of_mem _
      (ih hm (fun z hzz => hz z (List.mem_cons_of_mem _ hzz)))
  | case6 a rs1 b rs2 hcmp ih =>
    intro r hm hz
    simp only [mergeLists_cons_cons, hcmp]
    rcases List.mem_cons.mp hm with rfl | hm'
    · exact List.mem_cons_self _ _
    · exact List.mem_cons_of_mem _ (ih hm' hz)

/-! Helpers for the claim statements. -/

/-- The reader state after one `next` call, discarding the result. -/
def advance (bf : BedFile) : BedFile :=
  (bf.next).2

theorem fileRecs_mkFile (n : String) (ls : List String) :
    fileRecs (mkFile n ls) = parseLines n 0 ls := by
  simp [fileRecs, mkFile]

/-- Consuming `pre.length` nonempty chunks advances `lineno` by exactly one
per chunk and leaves the remainder unread, whatever each parse returned. -/
theorem advance_state : ∀ (pre : List String) (rest : List String) (bf : BedFile),
    bf.at_eof = false → bf.lines = pre ++ rest → (∀ s ∈ pre, s ≠ "") →
    ∃ b ll, advance^[pre.length] bf =
      { lineno := bf.lineno + pre.length, last := ll, filename := bf.filename,
        lines := rest, bufsize := b, at_eof := false } := by
  intro pre
  induction pre with
  | nil =>
    intro rest bf he hl _
    refine ⟨bf.bufsize, bf.last, ?_⟩
    simp only [List.length_nil, Function.iterate_zero, id_eq, Nat.add_zero]
    cases bf
    simp only at he hl
    simp [he, hl]
  | cons s pre ih =>
    intro rest bf he hl hne
    have hs : s ≠ "" := hne s (List.mem_cons_self _ _)
    have hadv : advance bf =
        { bf with bufsize := s.length, lineno := bf.lineno + 1,
                  last := some s, lines := pre ++ rest } := by
      unfold advance
      rw [next_cons he (by rw [hl]; rfl) hs]
      rfl
    obtain ⟨b, ll, hres⟩ := ih rest
      { bf with bufsize := s.length, lineno := bf.lineno + 1,
                last := some s, lines := pre ++ rest }
      he rfl (fun x hx => hne x (List.mem_cons_of_mem _ hx))
    refine ⟨b, ll, ?_⟩
    rw [List.length_cons, Function.iterate_succ_apply, hadv, hres]
    simp only
    congr 1
    omega

theorem parseLine_too_few {fname : String} {lineno : Nat} {line : String}
    (h : (asciiWords line.data).length < 6) :
    parseLine fname lineno line =
      .error (.Parse fname lineno
        ("expected at least 6 columns, got " ++ toString (asciiWords line.data).length)) := by
  unfold parseLine
  have hlen : ((asciiWords line.data).take 6).length = (asciiWords line.data).length := by
    rw [List.length_take]
    omega
  rw [dif_pos (by rw [hlen]; exact h)]
  rw [hlen]

theorem asciiWordsAux_ws : ∀ cs : List Char,
    (∀ c ∈ cs, isAsciiWhitespace c = true) → asciiWordsAux cs [] = []
  | [], _ => rfl
  | c :: cs, h => by
    have hc := h c (List.mem_cons_self _ _)
    simp [asciiWordsAux, hc,
      asciiWordsAux_ws cs (fun x hx => h x (List.mem_cons_of_mem _ hx))]

theorem asciiWords_ws {line : String} (h : line.data.all isAsciiWhitespace = true) :
    asciiWords line.data = [] :=
  asciiWordsAux_ws line.data (fun c hc => List.all_eq_true.mp h c hc)

/-- Dividing any `f32` value by finite zero never yields a finite value:
the result is NaN or a signed infinity. -/
theorem isFinite_div_zero (x : F32) : F32.isFinite (x / F32.finite 0) = false := by
  have h0 : (0 : ℚ).num = 0 := rfl
  cases x <;> simp only [HDiv.hDiv, Div.div, F32.div, h0, F32.isFinite] <;>
    split_ifs <;> rfl

/-- Priming step of `sync2` exposed as an equation. -/
theorem sync2_eq_loop {f1 f2 f1' f2' : BedFile} {r1 r2 : Option BedRecord}
    (h1 : f1.next = (.ok r1, f1')) (h2 : f2.next = (.ok r2, f2')) :
    sync2 f1 f2 = sync2Loop r1 r2 f1' f2' := by
  rw [sync2]
  split
  · next e snd heq => rw [h1] at heq; cases heq
  · next snd heq => rw [h1] at heq; cases heq
  · next ra fa heq =>
    rw [h1] at heq
    injection heq with hA hB
    injection hA with hA
    subst hA
    subst hB
    split
    · next e snd heq2 => rw [h2] at heq2; cases heq2
    · next snd heq2 => rw [h2] at heq2; cases heq2
    · next rb fb heq2 =>
      rw [h2] at heq2
      injection heq2 with hC hD
      injection hC with hC
      subst hC
      subst hD
      rfl

/-- Fuel-bounded structural twin of `sync2Loop`, used only to let the
kernel evaluate concrete runs (`sync2LoopFuel_sound` transfers the result
to the real loop). -/
def sync2LoopFuel : Nat → Option BedRecord → Option BedRecord → BedFile → BedFile →
    Option SyncResult
  | 0, _, _, _, _ => none
  | n + 1, r1, r2, f1, f2 =>
    match r1, r2 with
    | some rec1, some rec2 =>
      match BedCoords.cmp rec1.coords rec2.coords with
      | .eq =>
        let line := recordLine (combine rec1 rec2)
        match f1.next with
        | (.err e, _) => some ⟨[line], .err e⟩
        | (.panicked, _) => some ⟨[line], .panicked⟩
        | (.ok r1', f1') =>
          match f2.next with
          | (.err e, _) => some ⟨[line], .err e⟩
          | (.panicked, _) => some ⟨[line], .panicked⟩
          | (.ok r2', f2') => (sync2LoopFuel n r1' r2' f1' f2').map (consLine line)
      | .lt =>
        match f1.next with
        | (.err e, _) => some ⟨[recordLine rec1], .err e⟩
        | (.panicked, _) => some ⟨[recordLine rec1], .panicked⟩
        | (.ok r1', f1') =>
          (sync2LoopFuel n r1' (some rec2) f1' f2).map (consLine (recordLine rec1))
      | .gt =>
        match f2.next with
        | (.err e, _) => some ⟨[recordLine rec2], .err e⟩
        | (.panicked, _) => some ⟨[recordLine rec2], .panicked⟩
        | (.ok r2', f2') =>
          (sync2LoopFuel n (some rec1) r2' f1 f2').map (consLine (recordLine rec2))
    | some rec, none =>
      match f1.next with
      | (.err e, _) => some ⟨[recordLine rec], .err e⟩
      | (.panicked, _) => some ⟨[recordLine rec], .panicked⟩
      | (.ok r1', f1') =>
        match f2.next with
        | (.err e, _) => some ⟨[recordLine rec], .err e⟩
        | (.panicked, _) => some ⟨[recordLine rec], .panicked⟩
        | (.ok r2', f2') => (sync2LoopFuel n r1' r2' f1' f2').map (consLine (recordLine rec))
    | none, some rec =>
      match f1.next with
      | (.err e, _) => some ⟨[recordLine rec], .err e⟩
      | (.panicked, _) => some ⟨[recordLine rec], .panicked⟩
      | (.ok r1', f1') =>
        match f2.next with
        | (.err e, _) => some ⟨[recordLine rec], .err e⟩
        | (.panicked, _) => some ⟨[recordLine rec], .panicked⟩
        | (.ok r2', f2') => (sync2LoopFuel n r1' r2' f1' f2').map (consLine (recordLine rec))
    | none, none => some ⟨[], .ok⟩

theorem sync2LoopFuel_sound : ∀ (n : Nat) (r1 r2 : Option BedRecord) (f1 f2 : BedFile)
    (R : SyncResult), sync2LoopFuel n r1 r2 f1 f2 = some R → sync2Loop r1 r2 f1 f2 = R := by
  intro n
  induction n with
  | zero =>
    intro r1 r2 f1 f2 R h
    simp [sync2LoopFuel] at h
  | succ n ih =>
    intro r1 r2 f1 f2 R h
    cases r1 with
    | none =>
      cases r2 with
      | none =>
        simp only [sync2LoopFuel, Option.some.injEq] at h
        rw [sync2Loop_none_none, h]
      | some rec =>
        rcases h1 : f1.next with ⟨res1, g1⟩
        cases res1 with
        | err e =>
          simp only [sync2LoopFuel, h1, Option.some.injEq] at h
          rw [sync2Loop_none_some_err1 h1, h]
        | panicked => exact absurd (congrArg Prod.fst h1) (nextNoPanic f1)
        | ok r1' =>
          rcases h2 : f2.next with ⟨res2, g2⟩
          cases res2 with
          | err e =>
            simp only [sync2LoopFuel, h1, h2, Option.some.injEq] at h
            rw [sync2Loop_none_some_err2 h1 h2, h]
          | panicked => exact absurd (congrArg Prod.fst h2) (nextNoPanic f2)
          | ok r2' =>
            simp only [sync2LoopFuel, h1, h2, Option.map_eq_some'] at h
            obtain ⟨S, hS, hSR⟩ := h
            rw [sync2Loop_none_some h1 h2, ih _ _ _ _ _ hS, hSR]
    | some rec1 =>
      cases r2 with
      | none =>
        rcases h1 : f1.next with ⟨res1, g1⟩
        cases res1 with
        | err e =>
          simp only [sync2LoopFuel, h1, Option.some.injEq] at h
          rw [sync2Loop_some_none_err1 h1, h]
        | panicked => exact absurd (congrArg Prod.fst h1) (nextNoPanic f1)
        | ok r1' =>
          rcases h2 : f2.next with ⟨res2, g2⟩
          cases res2 with
          | err e =>
            simp only [sync2LoopFuel, h1, h2, Option.some.injEq] at h
            rw [sync2Loop_some_none_err2 h1 h2, h]
          | panicked => exact absurd (congrArg Prod.fst h2) (nextNoPanic f2)
          | ok r2' =>
            simp only [sync2LoopFuel, h1, h2, Option.map_eq_some'] at h
            obtain ⟨S, hS, hSR⟩ := h
            rw [sync2Loop_some_none h1 h2, ih _ _ _ _ _ hS, hSR]
      | some rec2 =>
        rcases hcmp : BedCoords.cmp rec1.coords rec2.coords with _ | _ | _
        · -- lt
          rcases h1 : f1.next with ⟨res1, g1⟩
          cases res1 with
          | err e =>
            simp only [sync2LoopFuel, hcmp, h1, Option.some.injEq] at h
            rw [sync2Loop_lt_err hcmp h1, h]
          | panicked => exact absurd (congrArg Prod.fst h1) (nextNoPanic f1)
          | ok r1' =>
            simp only [sync2LoopFuel, hcmp, h1, Option.map_eq_some'] at h
            obtain ⟨S, hS, hSR⟩ := h
            rw [sync2Loop_lt hcmp h1, ih _ _ _ _ _ hS, hSR]
        · -- eq
          rcases h1 : f1.next with ⟨res1, g1⟩
          cases res1 with
          | err e =>
            simp only [sync2LoopFuel, hcmp, h1, Option.some.injEq] at h
            rw [sync2Loop_agg_err1 hcmp h1, h]
          | panicked => exact absurd (congrArg Prod.fst h1) (nextNoPanic f1)
          | ok r1' =>
            rcases h2 : f2.next with ⟨res2, g2⟩
            cases res2 with
            | err e =>
              simp only [sync2LoopFuel, hcmp, h1, h2, Option.some.injEq] at h
              rw [sync2Loop_agg_err2 hcmp h1 h2, h]
            | panicked => exact absurd (congrArg Prod.fst h2) (nextNoPanic f2)
            | ok r2' =>
              simp only [sync2LoopFuel, hcmp, h1, h2, Option.map_eq_some'] at h
              obtain ⟨S, hS, hSR⟩ := h
              rw [sync2Loop_agg hcmp h1 h2, ih _ _ _ _ _ hS, hSR]
        · -- gt
          rcases h2 : f2.next with ⟨res2, g2⟩
          cases res2 with
          | err e =>
            simp only [sync2LoopFuel, hcmp, h2, Option.some.injEq] at h
            rw [sync2Loop_gt_err hcmp h2, h]
          | panicked => exact absurd (congrArg Prod.fst h2) (nextNoPanic f2)
          | ok r2' =>
            simp only [sync2LoopFuel, hcmp, h2, Option.map_eq_some'] at h
            obtain ⟨S, hS, hSR⟩ := h
            rw [sync2Loop_gt hcmp h2, ih _ _ _ _ _ hS, hSR]

/-- Fuel-bounded structural twin of `sync2`, for kernel evaluation of
concrete runs. -/
def sync2Fuel (n : Nat) (f1 f2 : BedFile) : Option SyncResult :=
  match f1.next with
  | (.err e, _) => some ⟨[], .err e⟩
  | (.panicked, _) => some ⟨[], .panicked⟩
  | (.ok r1, f1') =>
    match f2.next with
    | (.err e, _) => some ⟨[], .err e⟩
    | (.panicked, _) => some ⟨[], .panicked⟩
    | (.ok r2, f2') => sync2LoopFuel n r1 r2 f1' f2'

theorem sync2Fuel_sound (n : Nat) {f1 f2 : BedFile} {R : SyncResult}
    (h : sync2Fuel n f1 f2 = some R) : sync2 f1 f2 = R := by
  rw [sync2Fuel] at h
  rcases h1 : f1.next with ⟨res1, g1⟩
  cases res1 with
  | err e =>
    rw [h1] at h
    simp only [Option.some.injEq] at h
    rw [sync2, h1]
    exact h
  | panicked => exact absurd (congrArg Prod.fst h1) (nextNoPanic f1)
  | ok r1 =>
    rw [h1] at h
    rcases h2 : f2.next with ⟨res2, g2⟩
    cases res2 with
    | err e =>
      rw [h2] at h
      simp only [Option.some.injEq] at h
      rw [sync2, h1, h2]
      exact h
    | panicked => exact absurd (congrArg Prod.fst h2) (nextNoPanic f2)
    | ok r2 =>
      rw [h2] at h
      simp only at h
      rw [sync2_eq_loop h1 h2]
      exact sync2LoopFuel_sound _ _ _ _ _ _ h

/-- Shared unpacking of the refinement at freshly opened files: a clean run
prints exactly the rendered list merge of the two parsed record streams. -/
theorem sync2_mkFile_ok {n1 n2 : String} {ls1 ls2 : List String}
    {out : List String} {l1 l2 : List BedRecord}
    (w1 : ∀ l ∈ ls1, l ≠ "") (w2 : ∀ l ∈ ls2, l ≠ "")
    (p1 : parseLines n1 0 ls1 = .ok l1) (p2 : parseLines n2 0 ls2 = .ok l2)
    (h : sync2 (mkFile n1 ls1) (mkFile n2 ls2) = ⟨out, .ok⟩) :
    out = (mergeLists l1 l2).map recordLine := by
  have w1' : wfFile (mkFile n1 ls1) := w1
  have w2' : wfFile (mkFile n2 ls2) := w2
  obtain ⟨l1', l2', hf1, hf2, hout⟩ := sync2_ok w1' w2' h
  rw [fileRecs_mkFile, p1] at hf1
  rw [fileRecs_mkFile, p2] at hf2
  injection hf1 with e1
  injection hf2 with e2
  rw [hout, e1, e2]

/-! The claims. -/

/-- C1: for two input files whose records are each individually sorted
ascending by coordinate key (chrom lexicographic, then start, then end),
`sync2` emits its output records in ascending coordinate-key order with no
duplicate keys: a clean run prints exactly the renderings of
`mergeLists l1 l2`, and that record sequence is strictly ascending under
the key order `recLt` (pairwise, hence also duplicate-free).  "Sorted
ascending" is formalized as strictly ascending — an input repeating a key
would already contradict the spec's "every key that appeared in either
input appears exactly once in the output". -/
theorem sorted_inputs_sorted_output {n1 n2 : String} {ls1 ls2 : List String}
    {out : List String} {l1 l2 : List BedRecord}
    (w1 : ∀ l ∈ ls1, l ≠ "") (w2 : ∀ l ∈ ls2, l ≠ "")
    (p1 : parseLines n1 0 ls1 = .ok l1) (p2 : parseLines n2 0 ls2 = .ok l2)
    (s1 : List.Pairwise recLt l1) (s2 : List.Pairwise recLt l2)
    (h : sync2 (mkFile n1 ls1) (mkFile n2 ls2) = ⟨out, .ok⟩) :
    out = (mergeLists l1 l2).map recordLine ∧
      List.Pairwise recLt (mergeLists l1 l2) :=
  ⟨sync2_mkFile_ok w1 w2 p1 p2 h, mergeLists_pairwise l1 l2 s1 s2⟩

/-- Witness for C1 at a concrete pair of one-record files. -/
theorem sorted_inputs_sorted_output_witness :
    ["chr1\t1\t2\t0.5\t3\t4", "chr2\t1\t2\t0.5\t3\t4"] =
      (mergeLists
        [⟨⟨"chr1", 1, 2⟩, F32.finite (mkRat 1 2), F32.finite 3, F32.finite 4⟩]
        [⟨⟨"chr2", 1, 2⟩, F32.finite (mkRat 1 2), F32.finite 3, F32.finite 4⟩]).map recordLine ∧
    List.Pairwise recLt
      (mergeLists
        [⟨⟨"chr1", 1, 2⟩, F32.finite (mkRat 1 2), F32.finite 3, F32.finite 4⟩]
        [⟨⟨"chr2", 1, 2⟩, F32.finite (mkRat 1 2), F32.finite 3, F32.finite 4⟩]) :=
  @sorted_inputs_sorted_output "a" "b" ["chr1 1 2 0.5 3 4"] ["chr2 1 2 0.5 3 4"]
    ["chr1\t1\t2\t0.5\t3\t4", "chr2\t1\t2\t0.5\t3\t4"]
    [⟨⟨"chr1", 1, 2⟩, F32.finite (mkRat 1 2), F32.finite 3, F32.finite 4⟩]
    [⟨⟨"chr2", 1, 2⟩, F32.finite (mkRat 1 2), F32.finite 3, F32.finite 4⟩]
    (by decide) (by decide) rfl rfl (by decide) (by decide)
    (sync2Fuel_sound 5 (by decide))

/-- C2: for every coordinate key present in both sorted inputs, the record
`sync2` emits for that key has `meth` equal to the sum of the two inputs'
`meth` fields, `cov` the sum of their `cov` fields, and `ratio` the
quotient of those sums (the model's exact `f32` arithmetic), with the key
unchanged. -/
theorem aggregation_correct {n1 n2 : String} {ls1 ls2 : List String}
    {out : List String} {l1 l2 : List BedRecord} {r1 r2 : BedRecord}
    (w1 : ∀ l ∈ ls1, l ≠ "") (w2 : ∀ l ∈ ls2, l ≠ "")
    (p1 : parseLines n1 0 ls1 = .ok l1) (p2 : parseLines n2 0 ls2 = .ok l2)
    (s1 : List.Pairwise recLt l1) (s2 : List.Pairwise recLt l2)
    (m1 : r1 ∈ l1) (m2 : r2 ∈ l2) (hk : r1.coords = r2.coords)
    (h : sync2 (mkFile n1 ls1) (mkFile n2 ls2) = ⟨out, .ok⟩) :
    ∃ r ∈ mergeLists l1 l2,
      recordLine r ∈ out ∧ r.coords = r1.coords ∧
      r.meth = r1.meth + r2.meth ∧ r.cov = r1.cov + r2.cov ∧
      r.ratio = (r1.meth + r2.meth) / (r1.cov + r2.cov) := by
  have hm := mergeLists_agg l1 l2 s1 s2 m1 m2 hk
  have hout := sync2_mkFile_ok w1 w2 p1 p2 h
  refine ⟨combine r1 r2, hm, ?_, rfl, rfl, rfl, rfl⟩
  rw [hout]
  exact List.mem_map_of_mem _ hm

/-- Witness for C2 at a concrete equal-key pair. -/
theorem aggregation_correct_witness :
    ∃ r ∈ mergeLists
        [⟨⟨"chr1", 1, 2⟩, F32.finite (mkRat 1 2), F32.finite 3, F32.finite 4⟩]
        [⟨⟨"chr1", 1, 2⟩, F32.finite (mkRat 1 4), F32.finite 1, F32.finite 4⟩],
      recordLine r ∈ ["chr1\t1\t2\t0.5\t4\t8"] ∧
      r.coords = (⟨"chr1", 1, 2⟩ : BedCoords) ∧
      r.meth = F32.finite 3 + F32.finite 1 ∧
      r.cov = F32.finite 4 + F32.finite 4 ∧
      r.ratio = (F32.finite 3 + F32.finite 1) / (F32.finite 4 + F32.finite 4) :=
  @aggregation_correct "a" "b" ["chr1 1 2 0.5 3 4"] ["chr1 1 2 0.25 1 4"]
    ["chr1\t1\t2\t0.5\t4\t8"]
    [⟨⟨"chr1", 1, 2⟩, F32.finite (mkRat 1 2), F32.finite 3, F32.finite 4⟩]
    [⟨⟨"chr1", 1, 2⟩, F32.finite (mkRat 1 4), F32.finite 1, F32.finite 4⟩]
    ⟨⟨"chr1", 1, 2⟩, F32.finite (mkRat 1 2), F32.finite 3, F32.finite 4⟩
    ⟨⟨"chr1", 1, 2⟩, F32.finite (mkRat 1 4), F32.finite 1, F32.finite 4⟩
    (by decide) (by decide) rfl rfl (by decide) (by decide)
    (by decide) (by decide) (by decide)
    (sync2Fuel_sound 5 (by decide))

/-- C3: for sorted inputs, the output's key set is the union of the two
input key sets, and the number of printed lines is the cardinality of that
union. -/
theorem merge_key_union {n1 n2 : String} {ls1 ls2 : List String}
    {out : List String} {l1 l2 : List BedRecord}
    (w1 : ∀ l ∈ ls1, l ≠ "") (w2 : ∀ l ∈ ls2, l ≠ "")
    (p1 : parseLines n1 0 ls1 = .ok l1) (p2 : parseLines n2 0 ls2 = .ok l2)
    (s1 : List.Pairwise recLt l1) (s2 : List.Pairwise recLt l2)
    (h : sync2 (mkFile n1 ls1) (mkFile n2 ls2) = ⟨out, .ok⟩) :
    out = (mergeLists l1 l2).map recordLine ∧
    (∀ k : BedCoords,
        k ∈ (mergeLists l1 l2).map BedRecord.coords ↔
          k ∈ l1.map BedRecord.coords ∨ k ∈ l2.map BedRecord.coords) ∧
    out.length = ((l1.map BedRecord.coords ++ l2.map BedRecord.coords).toFinset).card := by
  have hout := sync2_mkFile_ok w1 w2 p1 p2 h
  refine ⟨hout, keys_mergeLists l1 l2, ?_⟩
  rw [hout, List.length_map]
  exact mergeLists_length s1 s2

/-- Witness for C3 at a concrete pair of one-record files. -/
theorem merge_key_union_witness :
    ["chr1\t1\t2\t0.5\t3\t4", "chr2\t1\t2\t0.5\t3\t4"] =
      (mergeLists
        [⟨⟨"chr1", 1, 2⟩, F32.finite (mkRat 1 2), F32.finite 3, F32.finite 4⟩]
        [⟨⟨"chr2", 1, 2⟩, F32.finite (mkRat 1 2), F32.finite 3, F32.finite 4⟩]).map recordLine ∧
    (∀ k : BedCoords,
        k ∈ (mergeLists
          [⟨⟨"chr1", 1, 2⟩, F32.finite (mkRat 1 2), F32.finite 3, F32.finite 4⟩]
          [⟨⟨"chr2", 1, 2⟩, F32.finite (mkRat 1 2), F32.finite 3, F32.finite 4⟩]).map BedRecord.coords ↔
          k ∈ [⟨⟨"chr1", 1, 2⟩, F32.finite (mkRat 1 2), F32.finite 3, F32.finite 4⟩].map BedRecord.coords ∨
          k ∈ [⟨⟨"chr2", 1, 2⟩, F32.finite (mkRat 1 2), F32.finite 3, F32.finite 4⟩].map BedRecord.coords) ∧
    (["chr1\t1\t2\t0.5\t3\t4", "chr2\t1\t2\t0.5\t3\t4"] : List String).length =
      (([⟨⟨"chr1", 1, 2⟩, F32.finite (mkRat 1 2), F32.finite 3, F32.finite 4⟩].map BedRecord.coords ++
        [(⟨⟨"chr2", 1, 2⟩, F32.finite (mkRat 1 2), F32.finite 3, F32.finite 4⟩ : BedRecord)].map BedRecord.coords).toFinset).card :=
  @merge_key_union "a" "b" ["chr1 1 2 0.5 3 4"] ["chr2 1 2 0.5 3 4"]
    ["chr1\t1\t2\t0.5\t3\t4", "chr2\t1\t2\t0.5\t3\t4"]
    [⟨⟨"chr1", 1, 2⟩, F32.finite (mkRat 1 2), F32.finite 3, F32.finite 4⟩]
    [⟨⟨"chr2", 1, 2⟩, F32.finite (mkRat 1 2), F32.finite 3, F32.finite 4⟩]
    (by decide) (by decide) rfl rfl (by decide) (by decide)
    (sync2Fuel_sound 5 (by decide))

/-- C4: a line with fewer than six whitespace-delimited fields makes `next`
return a `Parse` error carrying the file path, the accurate 1-based number
of the consumed line (the counter having been incremented for every
consumed line including this one), and a message stating the observed
column count. -/
theorem parse_error_column_count (name : String) (pre post : List String) (line : String)
    (hpre : ∀ s ∈ pre, s ≠ "") (hline : line ≠ "")
    (hbad : (asciiWords line.data).length < 6) :
    ((advance^[pre.length] (mkFile name (pre ++ line :: post))).next).1 =
      .err (.Parse name (pre.length + 1)
        ("expected at least 6 columns, got " ++ toString (asciiWords line.data).length)) ∧
    ((advance^[pre.length] (mkFile name (pre ++ line :: post))).next).2.lineno =
      pre.length + 1 := by
  obtain ⟨b, ll, hS⟩ :=
    advance_state pre (line :: post) (mkFile name (pre ++ line :: post)) rfl rfl hpre
  rw [hS, next_cons rfl rfl hline, parseLine_too_few hbad]
  constructor
  · simp [parseToNext, mkFile]
  · simp [mkFile]

/-- Witness for C4: line 5 of a five-line file has only 4 columns. -/
theorem parse_error_column_count_witness :
    ((advance^[4] (mkFile "f"
        ["chr1 1 2 0.5 3 4", "chr1 3 4 0.5 3 4", "chr1 5 6 0.5 3 4",
         "chr1 7 8 0.5 3 4", "chr1 9 10 0.5"])).next).1 =
      .err (.Parse "f" 5 "expected at least 6 columns, got 4") ∧
    ((advance^[4] (mkFile "f"
        ["chr1 1 2 0.5 3 4", "chr1 3 4 0.5 3 4", "chr1 5 6 0.5 3 4",
         "chr1 7 8 0.5 3 4", "chr1 9 10 0.5"])).next).2.lineno = 5 :=
  parse_error_column_count "f"
    ["chr1 1 2 0.5 3 4", "chr1 3 4 0.5 3 4", "chr1 5 6 0.5 3 4", "chr1 7 8 0.5 3 4"]
    [] "chr1 9 10 0.5" (by decide) (by decide) (by decide)

/-- C5 counterexample: on the spec's own example inputs the single output
line is `chr1 100 200 0.5 10 20` (tab-separated) — the ratio is
`meth_sum / cov_sum = 10 / 20 = 0.5`, not the claimed `1.0`, under either
rendering of that number. -/
theorem example_line_counterexample :
    sync2 (mkFile "a" ["chr1 100 200 0.5 5 10"]) (mkFile "b" ["chr1 100 200 0.5 5 10"]) =
      ⟨["chr1\t100\t200\t0.5\t10\t20"], .ok⟩ ∧
    (["chr1\t100\t200\t0.5\t10\t20"] : List String) ≠ ["chr1\t100\t200\t1.0\t10\t20"] ∧
    (["chr1\t100\t200\t0.5\t10\t20"] : List String) ≠ ["chr1\t100\t200\t1\t10\t20"] :=
  ⟨sync2Fuel_sound 5 (by decide), by decide, by decide⟩

/-- C5 as amended: for the inputs whose sole records are both the line
`chr1 100 200 0.5 5 10`, `sync2` emits exactly one line,
`chr1 100 200 0.5 10 20` (tab-separated). -/
theorem example_line_actual :
    sync2 (mkFile "a" ["chr1 100 200 0.5 5 10"]) (mkFile "b" ["chr1 100 200 0.5 5 10"]) =
      ⟨["chr1\t100\t200\t0.5\t10\t20"], .ok⟩ :=
  sync2Fuel_sound 5 (by decide)

/-- C6 counterexample: a key present only in the first input whose line is
space-separated is re-emitted tab-separated, so the output line is not
byte-for-byte the input line (no line terminator involved). -/
theorem passthrough_counterexample :
    sync2 (mkFile "a" ["chr1 100 200 0.5 5 10"]) (mkFile "b" ["chr2 1 2 0.5 5 10"]) =
      ⟨["chr1\t100\t200\t0.5\t5\t10", "chr2\t1\t2\t0.5\t5\t10"], .ok⟩ ∧
    ("chr1\t100\t200\t0.5\t5\t10" : String) ≠ "chr1 100 200 0.5 5 10" :=
  ⟨sync2Fuel_sound 5 (by decide), by decide⟩

/-- C6 as amended: for every key present in exactly one input, the emitted
line is the canonical tab-separated rendering (`recordLine`) of the parsed
input record with every field unchanged; it coincides byte-for-byte with
the input line only when that line is already in canonical form. -/
theorem passthrough_record_unchanged {n1 n2 : String} {ls1 ls2 : List String}
    {out : List String} {l1 l2 : List BedRecord}
    (w1 : ∀ l ∈ ls1, l ≠ "") (w2 : ∀ l ∈ ls2, l ≠ "")
    (p1 : parseLines n1 0 ls1 = .ok l1) (p2 : parseLines n2 0 ls2 = .ok l2)
    (h : sync2 (mkFile n1 ls1) (mkFile n2 ls2) = ⟨out, .ok⟩) :
    (∀ r ∈ l1, (∀ z ∈ l2, z.coords ≠ r.coords) → recordLine r ∈ out) ∧
    (∀ r ∈ l2, (∀ z ∈ l1, z.coords ≠ r.coords) → recordLine r ∈ out) := by
  have hout := sync2_mkFile_ok w1 w2 p1 p2 h
  constructor
  · intro r hr hz
    rw [hout]
    exact List.mem_map_of_mem _ (mergeLists_pass_left l1 l2 hr hz)
  · intro r hr hz
    rw [hout]
    exact List.mem_map_of_mem _ (mergeLists_pass_right l1 l2 hr hz)

/-- Witness for the amended C6 at a concrete pair of one-record files. -/
theorem passthrough_record_unchanged_witness :
    (∀ r ∈ [(⟨⟨"chr1", 1, 2⟩, F32.finite (mkRat 1 2), F32.finite 3, F32.finite 4⟩ : BedRecord)],
      (∀ z ∈ [(⟨⟨"chr2", 1, 2⟩, F32.finite (mkRat 1 2), F32.finite 3, F32.finite 4⟩ : BedRecord)],
          z.coords ≠ r.coords) →
        recordLine r ∈ ["chr1\t1\t2\t0.5\t3\t4", "chr2\t1\t2\t0.5\t3\t4"]) ∧
    (∀ r ∈ [(⟨⟨"chr2", 1, 2⟩, F32.finite (mkRat 1 2), F32.finite 3, F32.finite 4⟩ : BedRecord)],
      (∀ z ∈ [(⟨⟨"chr1", 1, 2⟩, F32.finite (mkRat 1 2), F32.finite 3, F32.finite 4⟩ : BedRecord)],
          z.coords ≠ r.coords) →
        recordLine r ∈ ["chr1\t1\t2\t0.5\t3\t4", "chr2\t1\t2\t0.5\t3\t4"]) :=
  @passthrough_record_unchanged "a" "b" ["chr1 1 2 0.5 3 4"] ["chr2 1 2 0.5 3 4"]
    ["chr1\t1\t2\t0.5\t3\t4", "chr2\t1\t2\t0.5\t3\t4"]
    [⟨⟨"chr1", 1, 2⟩, F32.finite (mkRat 1 2), F32.finite 3, F32.finite 4⟩]
    [⟨⟨"chr2", 1, 2⟩, F32.finite (mkRat 1 2), F32.finite 3, F32.finite 4⟩]
    (by decide) (by decide) rfl rfl
    (sync2Fuel_sound 5 (by decide))

/-- C7: when the two equal-key records' `cov` fields sum to (finite) zero,
the unguarded division yields a non-finite ratio (NaN or an infinity), and
the merge neither errors nor panics at this step: it emits the combined
record and continues. -/
theorem zero_cov_division_nonfinite {f1 f2 f1' f2' : BedFile} {rec1 rec2 : BedRecord}
    (h1 : f1.next = (.ok (some rec1), f1'))
    (h2 : f2.next = (.ok (some rec2), f2'))
    (heq : BedCoords.cmp rec1.coords rec2.coords = .eq)
    (hcov : rec1.cov + rec2.cov = F32.finite 0) :
    F32.isFinite ((rec1.meth + rec2.meth) / (rec1.cov + rec2.cov)) = false ∧
    ∃ rest : SyncResult, sync2 f1 f2 = consLine (recordLine (combine rec1 rec2)) rest := by
  constructor
  · rw [hcov]
    exact isFinite_div_zero _
  · have hs : sync2 f1 f2 = sync2Loop (some rec1) (some rec2) f1' f2' := sync2_eq_loop h1 h2
    rcases hn1 : f1'.next with ⟨res1, g1⟩
    cases res1 with
    | err e => exact ⟨⟨[], .err e⟩, by rw [hs, sync2Loop_agg_err1 heq hn1]; rfl⟩
    | panicked => exact absurd (congrArg Prod.fst hn1) (nextNoPanic f1')
    | ok r1'' =>
      rcases hn2 : f2'.next with ⟨res2, g2⟩
      cases res2 with
      | err e => exact ⟨⟨[], .err e⟩, by rw [hs, sync2Loop_agg_err2 heq hn1 hn2]; rfl⟩
      | panicked => exact absurd (congrArg Prod.fst hn2) (nextNoPanic f2')
      | ok r2'' => exact ⟨sync2Loop r1'' r2'' g1 g2, by rw [hs, sync2Loop_agg heq hn1 hn2]⟩

/-- Witness for C7: both records carry `cov = 0`; the pooled ratio is
`0 / 0`, which is non-finite (NaN), and the merge emits the line. -/
theorem zero_cov_division_nonfinite_witness :
    F32.isFinite ((F32.finite 0 + F32.finite 0) / (F32.finite 0 + F32.finite 0)) = false ∧
    ∃ rest : SyncResult,
      sync2 (mkFile "a" ["chr1 1 2 0 0 0"]) (mkFile "b" ["chr1 1 2 0 0 0"]) =
        consLine (recordLine (combine
          ⟨⟨"chr1", 1, 2⟩, F32.finite 0, F32.finite 0, F32.finite 0⟩
          ⟨⟨"chr1", 1, 2⟩, F32.finite 0, F32.finite 0, F32.finite 0⟩)) rest :=
  @zero_cov_division_nonfinite
    (mkFile "a" ["chr1 1 2 0 0 0"]) (mkFile "b" ["chr1 1 2 0 0 0"])
    ⟨1, some "chr1 1 2 0 0 0", "a", [], 14, false⟩
    ⟨1, some "chr1 1 2 0 0 0", "b", [], 14, false⟩
    ⟨⟨"chr1", 1, 2⟩, F32.finite 0, F32.finite 0, F32.finite 0⟩
    ⟨⟨"chr1", 1, 2⟩, F32.finite 0, F32.finite 0, F32.finite 0⟩
    (by decide) (by decide) (by decide) (by decide)

/-- C8: once `next` has returned `None`, the EOF flag is set and sticky:
the very next call returns `None` with the state unchanged, and any number
of further calls leaves the reader (line number, last line, unread chunks,
EOF flag) exactly as it was — no further read occurs. -/
theorem sticky_eof {bf bf' : BedFile} (n : Nat) (h : bf.next = (.ok none, bf')) :
    bf'.next = (.ok none, bf') ∧ advance^[n] bf' = bf' := by
  have he := next_ok_none_eof h
  have hn := next_eof he
  refine ⟨hn, ?_⟩
  induction n with
  | zero => rfl
  | succ n ih =>
    rw [Function.iterate_succ_apply]
    have ha : advance bf' = bf' := by rw [advance, hn]
    rw [ha]
    exact ih

/-- Witness for C8 on an empty file: the first call observes EOF, every
later call is a no-op. -/
theorem sticky_eof_witness :
    (⟨0, none, "a", [], 0, true⟩ : BedFile).next = (.ok none, ⟨0, none, "a", [], 0, true⟩) ∧
    advance^[3] (⟨0, none, "a", [], 0, true⟩ : BedFile) = ⟨0, none, "a", [], 0, true⟩ :=
  @sticky_eof (mkFile "a" []) ⟨0, none, "a", [], 0, true⟩ 3 (by decide)

/-- C9: a successfully read line consisting only of whitespace (for
example a bare newline mid-file) is neither skipped nor treated as end of
file: the counter is incremented and `next` returns a `Parse` error
reporting 0 columns. -/
theorem whitespace_line_parse_error {bf : BedFile} {line : String} {rest : List String}
    (he : bf.at_eof = false) (hl : bf.lines = line :: rest) (hne : line ≠ "")
    (hws : line.data.all isAsciiWhitespace = true) :
    bf.next = (.err (.Parse bf.filename (bf.lineno + 1) "expected at least 6 columns, got 0"),
               { bf with bufsize := line.length, lineno := bf.lineno + 1,
                         last := some line, lines := rest }) := by
  have hw0 : asciiWords line.data = [] := asciiWords_ws hws
  have hbad : (asciiWords line.data).length < 6 := by rw [hw0]; simp
  rw [next_cons he hl hne, parseLine_too_few hbad, hw0]
  rfl

/-- Witness for C9 on a file whose first line is a bare newline. -/
theorem whitespace_line_parse_error_witness :
    (mkFile "a" ["\n"]).next =
      (.err (.Parse "a" 1 "expected at least 6 columns, got 0"),
       ⟨1, some "\n", "a", [], 1, false⟩) :=
  @whitespace_line_parse_error (mkFile "a" ["\n"]) "\n" [] rfl rfl (by decide) (by decide)

/-- C10: neither `next` nor `sync2` ever panics: the `unreachable!` branch
in `next` and the `unwrap` in the equal-key branch are dead; every failure
is returned as a `BedError` value. -/
theorem no_panic :
    (∀ bf : BedFile, (bf.next).1 ≠ .panicked) ∧
    ∀ f1 f2 : BedFile, (sync2 f1 f2).res ≠ .panicked :=
  ⟨nextNoPanic, sync2NoPanic⟩

end Bedpool
